import Mathlib

/-!
Verification of the windspharm grid/dimension reconciliation layer and the
diagnostic composition layer.

Arrays are modelled as row-major (C-contiguous) flat data plus a shape list,
mirroring `numpy.ndarray`.  `numpy.reshape` on a C-contiguous array
reinterprets the shape and keeps the flat data; `numpy.transpose`/`rollaxis`
rearrange the flat data according to an axis permutation.  Machine floats are
modelled as exact rationals (`ℚ`); the external spherical-harmonic library
(`spharm`/`cdms2`) is abstracted by parameters as described at each use site.
-/

namespace Windspharm

/-! ### Row-major index arithmetic -/

/-- Flat (row-major) index of a multi-index `ix` in an array of shape `ss`. -/
def ravel : List ℕ → List ℕ → ℕ
  | _ :: ss, i :: is => i * ss.prod + ravel ss is
  | _, _ => 0

/-- Multi-index of flat (row-major) index `k` in an array of shape `ss`. -/
def unravel : List ℕ → ℕ → List ℕ
  | [], _ => []
  | _ :: ss, k => k / ss.prod :: unravel ss (k % ss.prod)

/-- `validIx ss ix` holds when `ix` is a within-bounds multi-index for shape `ss`. -/
def validIx : List ℕ → List ℕ → Bool
  | [], [] => true
  | s :: ss, i :: is => decide (i < s) && validIx ss is
  | _, _ => false

theorem validIx_length : ∀ {ss ix : List ℕ}, validIx ss ix = true → ix.length = ss.length
  | [], [], _ => rfl
  | [], _ :: _, h => by simp [validIx] at h
  | _ :: _, [], h => by simp [validIx] at h
  | _ :: ss, _ :: is, h => by
      simp only [validIx, Bool.and_eq_true, decide_eq_true_eq] at h
      simpa [List.length_cons] using validIx_length h.2

theorem ravel_lt : ∀ {ss ix : List ℕ}, validIx ss ix = true → ravel ss ix < ss.prod
  | [], [], _ => by simp [ravel]
  | [], _ :: _, h => by simp [validIx] at h
  | _ :: _, [], h => by simp [validIx] at h
  | s :: ss, i :: is, h => by
      simp only [validIx, Bool.and_eq_true, decide_eq_true_eq] at h
      have hr := ravel_lt h.2
      have : i * ss.prod + ravel ss is < (i + 1) * ss.prod := by
        rw [Nat.succ_mul]
        exact Nat.add_lt_add_left hr _
      calc i * ss.prod + ravel ss is < (i + 1) * ss.prod := this
        _ ≤ s * ss.prod := Nat.mul_le_mul_right _ h.1
        _ = (s :: ss).prod := by simp [List.prod_cons]

theorem unravel_ravel : ∀ {ss ix : List ℕ}, validIx ss ix = true →
    unravel ss (ravel ss ix) = ix
  | [], [], _ => rfl
  | [], _ :: _, h => by simp [validIx] at h
  | _ :: _, [], h => by simp [validIx] at h
  | s :: ss, i :: is, h => by
      simp only [validIx, Bool.and_eq_true, decide_eq_true_eq] at h
      have hr := ravel_lt h.2
      have hP : 0 < ss.prod := Nat.lt_of_le_of_lt (Nat.zero_le _) hr
      simp only [ravel, unravel]
      refine List.cons_eq_cons.mpr ⟨?_, ?_⟩
      · rw [Nat.add_comm, Nat.add_mul_div_right _ _ hP, Nat.div_eq_of_lt hr, Nat.zero_add]
      · rw [Nat.add_comm, Nat.add_mul_mod_self_right, Nat.mod_eq_of_lt hr]
        exact unravel_ravel h.2

theorem ravel_unravel : ∀ {ss : List ℕ} {k : ℕ}, k < ss.prod →
    ravel ss (unravel ss k) = k
  | [], k, h => by
      simp only [List.prod_nil, Nat.lt_one_iff] at h
      simp [unravel, ravel, h]
  | s :: ss, k, h => by
      have hP : 0 < ss.prod := by
        rcases Nat.eq_zero_or_pos ss.prod with h0 | h0
        · rw [List.prod_cons, h0, Nat.mul_zero] at h; exact absurd h (Nat.not_lt_zero _)
        · exact h0
      simp only [unravel, ravel]
      rw [ravel_unravel (Nat.mod_lt _ hP), Nat.mul_comm, Nat.div_add_mod]

theorem validIx_unravel : ∀ {ss : List ℕ} {k : ℕ}, k < ss.prod →
    validIx ss (unravel ss k) = true
  | [], k, h => by
      simp only [List.prod_nil, Nat.lt_one_iff] at h
      simp [unravel, validIx]
  | s :: ss, k, h => by
      have hP : 0 < ss.prod := by
        rcases Nat.eq_zero_or_pos ss.prod with h0 | h0
        · rw [List.prod_cons, h0, Nat.mul_zero] at h; exact absurd h (Nat.not_lt_zero _)
        · exact h0
      simp only [unravel, validIx, Bool.and_eq_true, decide_eq_true_eq]
      refine ⟨?_, validIx_unravel (Nat.mod_lt _ hP)⟩
      rw [Nat.div_lt_iff_lt_mul hP]
      simpa [List.prod_cons, Nat.mul_comm] using h

theorem length_unravel : ∀ (ss : List ℕ) (k : ℕ), (unravel ss k).length = ss.length
  | [], _ => rfl
  | _ :: ss, k => by simp [unravel, length_unravel ss]

theorem validIx_getD {ss ix : List ℕ} (h : validIx ss ix = true) :
    ∀ t, t < ss.length → ix.getD t 0 < ss.getD t 0 := by
  induction ss generalizing ix with
  | nil => intro t ht; exact absurd ht (Nat.not_lt_zero _)
  | cons s ss ih =>
      match ix with
      | [] => simp [validIx] at h
      | i :: is =>
          simp only [validIx, Bool.and_eq_true, decide_eq_true_eq] at h
          intro t ht
          match t with
          | 0 => simpa using h.1
          | t + 1 => simpa using ih h.2 t (by simpa using ht)

theorem validIx_of {ss ix : List ℕ} (hlen : ix.length = ss.length)
    (h : ∀ t, t < ss.length → ix.getD t 0 < ss.getD t 0) : validIx ss ix = true := by
  induction ss generalizing ix with
  | nil =>
      match ix with
      | [] => rfl
      | _ :: _ => simp at hlen
  | cons s ss ih =>
      match ix with
      | [] => simp at hlen
      | i :: is =>
          simp only [validIx, Bool.and_eq_true, decide_eq_true_eq]
          refine ⟨by simpa using h 0 (by simp), ih (by simpa using hlen) ?_⟩
          intro t ht
          simpa using h (t + 1) (by simpa using ht)

/-! ### Generic list helpers -/

theorem map_getD_range {α : Type} (l : List α) (d : α) :
    (List.range l.length).map (fun k => l.getD k d) = l := by
  apply List.ext_getElem
  · simp
  · intro i h1 h2
    simp only [List.getElem_map, List.getElem_range]
    rw [List.getD_eq_getElem l d h2]

theorem getD_map_range {α : Type} {N k : ℕ} (hk : k < N) (f : ℕ → α) (d : α) :
    ((List.range N).map f).getD k d = f k := by
  rw [List.getD_eq_getElem _ d (by simpa using hk)]
  simp

theorem getD_map_of_lt {α β : Type} (f : α → β) {l : List α} {t : ℕ} (ht : t < l.length)
    (d : α) (e : β) : (l.map f).getD t e = f (l.getD t d) := by
  rw [List.getD_eq_getElem _ e (by simpa using ht), List.getD_eq_getElem _ d ht]
  simp

theorem nodup_indexOf_getElem {α : Type} [DecidableEq α] {l : List α} (hn : l.Nodup)
    {t : ℕ} (ht : t < l.length) : l.indexOf l[t] = t := by
  have hmem : l[t] ∈ l := List.getElem_mem ht
  have hlt : l.indexOf l[t] < l.length := List.indexOf_lt_length.mpr hmem
  have : l[l.indexOf l[t]] = l[t] := List.getElem_indexOf hlt
  exact hn.getElem_inj_iff.mp this

theorem getD_indexOf {α : Type} [DecidableEq α] {l : List α} {c : α} (hc : c ∈ l) (d : α) :
    l.getD (l.indexOf c) d = c := by
  have hlt : l.indexOf c < l.length := List.indexOf_lt_length.mpr hc
  rw [List.getD_eq_getElem _ d hlt]
  exact List.getElem_indexOf hlt

theorem indexOf_ne_indexOf {α : Type} [DecidableEq α] {l : List α} {c e : α}
    (hc : c ∈ l) (he : e ∈ l) (hne : c ≠ e) : l.indexOf c ≠ l.indexOf e := by
  intro h
  apply hne
  have h1 := getD_indexOf hc c
  have h2 := getD_indexOf he c
  rw [← h1, ← h2, h]

theorem indexOf_cons_ite {α : Type} [DecidableEq α] (a e : α) (t : List α) :
    (a :: t).indexOf e = if a = e then 0 else t.indexOf e + 1 := by
  by_cases h : a = e
  · simp [List.indexOf_cons, cond_eq_if, beq_iff_eq, h]
  · simp [List.indexOf_cons, cond_eq_if, beq_iff_eq, h]

/-- Position of an element in `l.erase c` in terms of its position in `l`
(no duplicate-freeness needed). -/
theorem indexOf_erase {α : Type} [DecidableEq α] {l : List α} {c e : α}
    (hc : c ∈ l) (he : e ∈ l) (hne : e ≠ c) :
    (l.erase c).indexOf e =
      if l.indexOf e < l.indexOf c then l.indexOf e else l.indexOf e - 1 := by
  induction l with
  | nil => cases hc
  | cons a t ih =>
      by_cases hac : a = c
      · rw [hac, List.erase_cons_head, indexOf_cons_ite, indexOf_cons_ite,
          if_neg (Ne.symm hne), if_pos rfl, if_neg (Nat.not_lt_zero _)]
        omega
      · rw [List.erase_cons_tail (by simpa using hac)]
        by_cases hae : a = e
        · rw [indexOf_cons_ite, indexOf_cons_ite, indexOf_cons_ite, if_pos hae, if_pos hae,
            if_neg hac, if_pos (Nat.succ_pos _)]
        · have hct : c ∈ t := by
            rcases List.mem_cons.mp hc with h | h
            · exact absurd h.symm hac
            · exact h
          have het : e ∈ t := by
            rcases List.mem_cons.mp he with h | h
            · exact absurd h.symm hae
            · exact h
          rw [indexOf_cons_ite, indexOf_cons_ite, indexOf_cons_ite, if_neg hae, if_neg hae,
            if_neg hac, ih hct het]
          have hx : t.indexOf e ≠ t.indexOf c := indexOf_ne_indexOf het hct hne
          by_cases hlt : t.indexOf e < t.indexOf c
          · simp only [if_pos hlt, if_pos (Nat.add_lt_add_right hlt 1)]
          · have hgt : t.indexOf c < t.indexOf e := by omega
            have hn2 : ¬ (t.indexOf e + 1 < t.indexOf c + 1) := by omega
            simp only [if_neg hlt, if_neg hn2]
            omega

theorem indexOf_map_self {α : Type} [DecidableEq α] {f : α → α} {l : List α} {c : α}
    (hn : (l.map f).Nodup) (hc : c ∈ l) (hfc : f c = c) :
    (l.map f).indexOf c = l.indexOf c := by
  induction l with
  | nil => cases hc
  | cons a t ih =>
      by_cases hac : a = c
      · subst hac
        rw [List.map_cons, hfc, List.indexOf_cons_self, List.indexOf_cons_self]
      · have hct : c ∈ t := by
          rcases List.mem_cons.mp hc with h | h
          · exact absurd h.symm hac
          · exact h
        have hfa : f a ≠ c := by
          intro h
          have h1 : c ∈ t.map f := by
            rw [← hfc]; exact List.mem_map_of_mem f hct
          rw [List.map_cons, h] at hn
          exact (List.nodup_cons.mp hn).1 h1
        rw [List.map_cons, indexOf_cons_ite, indexOf_cons_ite, if_neg hfa, if_neg hac,
          ih (by rw [List.map_cons] at hn; exact (List.nodup_cons.mp hn).2) hct]

/-! ### The ndarray model -/

/-- A multi-dimensional array: a shape together with the row-major flat data.
Mirrors a C-contiguous `numpy.ndarray`. -/
structure NDArray (α : Type) where
  shape : List ℕ
  data : List α
deriving DecidableEq

/-- Well-formedness: the flat data has exactly one element per grid point. -/
def NDArray.wf {α : Type} (a : NDArray α) : Prop := a.data.length = a.shape.prod

/-- Element of `a` at multi-index `ix` (row-major lookup). -/
def NDArray.aget {α : Type} [Inhabited α] (a : NDArray α) (ix : List ℕ) : α :=
  a.data.getD (ravel a.shape ix) default

/-- `p` is an axis permutation of an `n`-dimensional array. -/
def IsPermList (p : List ℕ) (n : ℕ) : Prop := List.Perm p (List.range n)

theorem IsPermList.length_eq {p : List ℕ} {n : ℕ} (h : IsPermList p n) : p.length = n := by
  simpa using List.Perm.length_eq h

theorem IsPermList.nodup {p : List ℕ} {n : ℕ} (h : IsPermList p n) : p.Nodup :=
  (List.Perm.nodup_iff h).mpr (List.nodup_range _)

theorem IsPermList.mem_iff {p : List ℕ} {n : ℕ} (h : IsPermList p n) {t : ℕ} :
    t ∈ p ↔ t < n := by
  rw [List.Perm.mem_iff h, List.mem_range]

theorem IsPermList.getD_lt {p : List ℕ} {n : ℕ} (h : IsPermList p n) {t : ℕ} (ht : t < n) :
    p.getD t 0 < n := by
  have hl : t < p.length := by rw [h.length_eq]; exact ht
  rw [List.getD_eq_getElem _ 0 hl]
  exact h.mem_iff.mp (List.getElem_mem hl)

theorem IsPermList.indexOf_lt {p : List ℕ} {n : ℕ} (h : IsPermList p n) {s : ℕ} (hs : s < n) :
    p.indexOf s < n := by
  rw [← h.length_eq]
  exact List.indexOf_lt_length.mpr (h.mem_iff.mpr hs)

theorem IsPermList.getD_at_indexOf {p : List ℕ} {n : ℕ} (h : IsPermList p n) {s : ℕ}
    (hs : s < n) : p.getD (p.indexOf s) 0 = s :=
  Windspharm.getD_indexOf (h.mem_iff.mpr hs) 0

theorem IsPermList.indexOf_getD {p : List ℕ} {n : ℕ} (h : IsPermList p n) {t : ℕ}
    (ht : t < n) : p.indexOf (p.getD t 0) = t := by
  have hl : t < p.length := by rw [h.length_eq]; exact ht
  rw [List.getD_eq_getElem _ 0 hl]
  exact nodup_indexOf_getElem h.nodup hl

/-- Composition of axis permutations: apply `p` first, then `q`. -/
def pcomp (p q : List ℕ) : List ℕ := q.map (fun t => p.getD t 0)

theorem pcomp_isPerm {p q : List ℕ} {n : ℕ} (hp : IsPermList p n) (hq : IsPermList q n) :
    IsPermList (pcomp p q) n := by
  have h1 : List.Perm (pcomp p q) ((List.range n).map (fun t => p.getD t 0)) :=
    hq.map _
  have h2 : (List.range n).map (fun t => p.getD t 0) = p := by
    rw [← hp.length_eq]; exact map_getD_range p 0
  rw [h2] at h1
  exact h1.trans hp

theorem getD_pcomp {p q : List ℕ} {n : ℕ} (hq : IsPermList q n) {t : ℕ} (ht : t < n) :
    (pcomp p q).getD t 0 = p.getD (q.getD t 0) 0 := by
  have hl : t < q.length := by rw [hq.length_eq]; exact ht
  exact getD_map_of_lt _ hl 0 0

theorem pcomp_indexOf {p q : List ℕ} {n : ℕ} (hp : IsPermList p n) (hq : IsPermList q n)
    {s : ℕ} (hs : s < n) : (pcomp p q).indexOf s = q.indexOf (p.indexOf s) := by
  have hc : IsPermList (pcomp p q) n := pcomp_isPerm hp hq
  have ht : q.indexOf (p.indexOf s) < n := hq.indexOf_lt (hp.indexOf_lt hs)
  have hval : (pcomp p q).getD (q.indexOf (p.indexOf s)) 0 = s := by
    rw [getD_pcomp hq ht, hq.getD_at_indexOf (hp.indexOf_lt hs), hp.getD_at_indexOf hs]
  have hl : q.indexOf (p.indexOf s) < (pcomp p q).length := by
    rw [hc.length_eq]; exact ht
  rw [List.getD_eq_getElem _ 0 hl] at hval
  have hres := nodup_indexOf_getElem hc.nodup hl
  rw [hval] at hres
  exact hres

/-- Source multi-index corresponding to result multi-index `j` under axis
permutation `p` (numpy `transpose(p)`: result axis `t` is source axis `p[t]`,
so source axis `s` reads result axis `p.indexOf s`). -/
def ipermute (p : List ℕ) (j : List ℕ) : List ℕ :=
  (List.range p.length).map (fun s => j.getD (p.indexOf s) 0)

theorem length_ipermute (p j : List ℕ) : (ipermute p j).length = p.length := by
  simp [ipermute]

theorem getD_ipermute {p : List ℕ} {s : ℕ} (hs : s < p.length) (j : List ℕ) :
    (ipermute p j).getD s 0 = j.getD (p.indexOf s) 0 :=
  getD_map_range hs _ 0

theorem ipermute_ipermute {p q : List ℕ} {n : ℕ} (hp : IsPermList p n)
    (hq : IsPermList q n) (j : List ℕ) :
    ipermute p (ipermute q j) = ipermute (pcomp p q) j := by
  have hcl : (pcomp p q).length = n := (pcomp_isPerm hp hq).length_eq
  apply List.ext_getElem
  · simp [ipermute, hcl, hp.length_eq]
  · intro s h1 h2
    have hsn : s < n := by
      have := h1; rw [length_ipermute, hp.length_eq] at this; exact this
    rw [← List.getD_eq_getElem _ 0 h1, ← List.getD_eq_getElem _ 0 h2,
      getD_ipermute (by rw [hp.length_eq]; exact hsn),
      getD_ipermute (by rw [hq.length_eq]; exact hp.indexOf_lt hsn),
      getD_ipermute (by rw [hcl]; exact hsn), pcomp_indexOf hp hq hsn]

theorem ipermute_range {n : ℕ} {j : List ℕ} (hj : j.length = n) :
    ipermute (List.range n) j = j := by
  have hperm : IsPermList (List.range n) n := List.Perm.refl _
  apply List.ext_getElem
  · simp [ipermute, hj]
  · intro s h1 h2
    have hsn : s < n := by simpa [ipermute] using h1
    rw [← List.getD_eq_getElem _ 0 h1, ← List.getD_eq_getElem _ 0 h2,
      getD_ipermute (by simpa using hsn)]
    have : (List.range n).indexOf s = s := by
      have := nodup_indexOf_getElem (List.nodup_range n) (by simpa using hsn)
      simpa using this
    rw [this]

theorem validIx_ipermute {p : List ℕ} {n : ℕ} (hp : IsPermList p n) {shape : List ℕ}
    (hs : shape.length = n) {j : List ℕ}
    (hj : validIx (p.map (fun t => shape.getD t 0)) j = true) :
    validIx shape (ipermute p j) = true := by
  apply validIx_of
  · rw [length_ipermute, hp.length_eq, hs]
  · intro t ht
    have htn : t < n := by rw [hs] at ht; exact ht
    rw [getD_ipermute (by rw [hp.length_eq]; exact htn)]
    have hidx : p.indexOf t < n := hp.indexOf_lt htn
    have h1 := validIx_getD hj (p.indexOf t)
      (by rw [List.length_map, hp.length_eq]; exact hidx)
    rw [getD_map_of_lt _ (by rw [hp.length_eq]; exact hidx) 0 0] at h1
    rw [hp.getD_at_indexOf htn] at h1
    exact h1

/-- numpy `transpose(p)`: result shape is `p` applied to the shape; each result
element is read from the permuted source multi-index. -/
def transpose {α : Type} [Inhabited α] (p : List ℕ) (a : NDArray α) : NDArray α :=
  let nshape := p.map (fun t => a.shape.getD t 0)
  ⟨nshape, (List.range nshape.prod).map
    (fun k => a.data.getD (ravel a.shape (ipermute p (unravel nshape k))) default)⟩

theorem transpose_shape {α : Type} [Inhabited α] (p : List ℕ) (a : NDArray α) :
    (transpose p a).shape = p.map (fun t => a.shape.getD t 0) := rfl

theorem transpose_wf {α : Type} [Inhabited α] (p : List ℕ) (a : NDArray α) :
    (transpose p a).wf := by
  simp [transpose, NDArray.wf]

theorem transpose_shape_length {α : Type} [Inhabited α] {p : List ℕ} {n : ℕ}
    (hp : IsPermList p n) (a : NDArray α) : (transpose p a).shape.length = n := by
  rw [transpose_shape, List.length_map, hp.length_eq]

theorem transpose_shape_getD {α : Type} [Inhabited α] {p : List ℕ} {n : ℕ}
    (hp : IsPermList p n) (a : NDArray α) {t : ℕ} (ht : t < n) :
    (transpose p a).shape.getD t 0 = a.shape.getD (p.getD t 0) 0 := by
  rw [transpose_shape]
  exact getD_map_of_lt _ (by rw [hp.length_eq]; exact ht) 0 0

theorem transpose_shape_prod {α : Type} [Inhabited α] {p : List ℕ} {n : ℕ}
    (hp : IsPermList p n) (a : NDArray α) (ha : a.shape.length = n) :
    (transpose p a).shape.prod = a.shape.prod := by
  rw [transpose_shape]
  have h1 : List.Perm (p.map (fun t => a.shape.getD t 0))
      ((List.range n).map (fun t => a.shape.getD t 0)) := hp.map _
  have h2 : (List.range n).map (fun t => a.shape.getD t 0) = a.shape := by
    rw [← ha]; exact map_getD_range a.shape 0
  rw [h2] at h1
  exact h1.prod_eq

theorem NDArray.ext2 {α : Type} {a b : NDArray α} (hs : a.shape = b.shape)
    (hd : a.data = b.data) : a = b := by
  cases a; cases b; cases hs; cases hd; rfl

theorem transpose_data_length {α : Type} [Inhabited α] (p : List ℕ) (a : NDArray α) :
    (transpose p a).data.length = (transpose p a).shape.prod := transpose_wf p a

theorem transpose_data_getD {α : Type} [Inhabited α] (p : List ℕ) (a : NDArray α) {k : ℕ}
    (hk : k < (transpose p a).shape.prod) :
    (transpose p a).data.getD k default =
      a.data.getD (ravel a.shape (ipermute p (unravel (transpose p a).shape k))) default :=
  getD_map_range hk _ default

theorem transpose_transpose {α : Type} [Inhabited α] {p q : List ℕ} {n : ℕ}
    (hp : IsPermList p n) (hq : IsPermList q n) (a : NDArray α)
    (ha : a.shape.length = n) :
    transpose q (transpose p a) = transpose (pcomp p q) a := by
  have hpq : IsPermList (pcomp p q) n := pcomp_isPerm hp hq
  have hshape : (transpose q (transpose p a)).shape = (transpose (pcomp p q) a).shape := by
    apply List.ext_getElem
    · rw [transpose_shape_length hq, transpose_shape_length hpq]
    · intro t h1 h2
      have htn : t < n := by rw [transpose_shape_length hq] at h1; exact h1
      rw [← List.getD_eq_getElem _ 0 h1, ← List.getD_eq_getElem _ 0 h2,
        transpose_shape_getD hq _ htn, transpose_shape_getD hp _ (hq.getD_lt htn),
        transpose_shape_getD hpq _ htn, getD_pcomp hq htn]
  apply NDArray.ext2 hshape
  have hb1 : (transpose p a).shape.length = n := transpose_shape_length hp a
  apply List.ext_getElem
  · rw [transpose_data_length, transpose_data_length, hshape]
  · intro k h1 h2
    have hk2 : k < (transpose q (transpose p a)).shape.prod := by
      rw [transpose_data_length] at h1; exact h1
    have hkR : k < (transpose (pcomp p q) a).shape.prod := by rw [← hshape]; exact hk2
    rw [← List.getD_eq_getElem _ default h1, ← List.getD_eq_getElem _ default h2,
      transpose_data_getD q _ hk2, transpose_data_getD (pcomp p q) _ hkR]
    have huv : validIx (transpose q (transpose p a)).shape
        (unravel (transpose q (transpose p a)).shape k) = true := validIx_unravel hk2
    have hvj : validIx (transpose p a).shape
        (ipermute q (unravel (transpose q (transpose p a)).shape k)) = true := by
      apply validIx_ipermute hq hb1
      exact huv
    have hrlt : ravel (transpose p a).shape
        (ipermute q (unravel (transpose q (transpose p a)).shape k))
          < (transpose p a).shape.prod := ravel_lt hvj
    rw [transpose_data_getD p _ hrlt, unravel_ravel hvj,
      ipermute_ipermute hp hq, hshape]

/-- Transposing by the identity permutation is the identity on well-formed arrays. -/
theorem transpose_range {α : Type} [Inhabited α] {n : ℕ} (a : NDArray α)
    (hwf : a.wf) (ha : a.shape.length = n) : transpose (List.range n) a = a := by
  have hid : IsPermList (List.range n) n := List.Perm.refl _
  have hshape : (transpose (List.range n) a).shape = a.shape := by
    rw [transpose_shape, ← ha]
    exact map_getD_range a.shape 0
  apply NDArray.ext2 hshape
  apply List.ext_getElem
  · rw [transpose_data_length, hshape, hwf]
  · intro k h1 h2
    have hk : k < (transpose (List.range n) a).shape.prod := by
      rw [transpose_data_length] at h1; exact h1
    have hk2 : k < a.shape.prod := by rw [← hshape]; exact hk
    rw [← List.getD_eq_getElem _ default h1, ← List.getD_eq_getElem _ default h2,
      transpose_data_getD _ _ hk, hshape,
      ipermute_range (by rw [length_unravel]; exact ha), ravel_unravel hk2]

/-! ### Axis labels: ghost tracking of which original axis sits where -/

/-- The labels of the axes of `transpose p a` when the axes of `a` are
labelled by `L`. -/
def plabels (p : List ℕ) (L : List Char) : List Char :=
  p.map (fun t => L.getD t ' ')

theorem length_plabels (p : List ℕ) (L : List Char) : (plabels p L).length = p.length := by
  simp [plabels]

theorem plabels_pcomp {p q : List ℕ} {n : ℕ} (hp : IsPermList p n) (hq : IsPermList q n)
    {L : List Char} (hL : L.length = n) :
    plabels (pcomp p q) L = plabels q (plabels p L) := by
  apply List.ext_getElem
  · simp [plabels, pcomp]
  · intro t h1 h2
    have htn : t < n := by
      rw [length_plabels, (pcomp_isPerm hp hq).length_eq] at h1; exact h1
    rw [← List.getD_eq_getElem _ ' ' h1, ← List.getD_eq_getElem _ ' ' h2]
    unfold plabels
    rw [getD_map_of_lt _ (by rw [(pcomp_isPerm hp hq).length_eq]; exact htn) 0 ' ',
      getD_map_of_lt _ (by rw [hq.length_eq]; exact htn) 0 ' ',
      getD_map_of_lt _ (by rw [hp.length_eq]; exact hq.getD_lt htn) 0 ' ',
      getD_pcomp hq htn]

/-- Axis permutation of numpy `rollaxis(·, k)` (roll axis `k` to the front). -/
def rollPerm (n k : ℕ) : List ℕ := k :: (List.range n).erase k

theorem rollPerm_isPerm {n k : ℕ} (hk : k < n) : IsPermList (rollPerm n k) n :=
  (List.perm_cons_erase (by simpa using hk)).symm

theorem map_getD_erase_range {α : Type} (L : List α) (d : α) :
    ∀ {k : ℕ}, k < L.length →
      ((List.range L.length).erase k).map (fun t => L.getD t d) = L.eraseIdx k := by
  induction L with
  | nil => intro k hk; exact absurd hk (Nat.not_lt_zero _)
  | cons a T ih =>
      intro k hk
      rw [List.length_cons, List.range_succ_eq_map]
      match k with
      | 0 =>
          rw [List.erase_cons_head, List.map_map, List.eraseIdx_cons_zero]
          have : (fun t => (a :: T).getD t d) ∘ Nat.succ = fun t => T.getD t d := by
            funext t; simp
          rw [this, map_getD_range]
      | k + 1 =>
          rw [List.erase_cons_tail (by simp), List.eraseIdx_cons_succ, List.map_cons]
          have hsu : ((List.range T.length).map Nat.succ).erase (k + 1)
              = ((List.range T.length).erase k).map Nat.succ :=
            (List.map_erase (fun x y h => Nat.succ_injective h) _).symm
          rw [hsu, List.map_map]
          have : (fun t => (a :: T).getD t d) ∘ Nat.succ = fun t => T.getD t d := by
            funext t; simp
          rw [this]
          have hk2 : k < T.length := by simpa using hk
          simp only [List.getD_cons_zero]
          rw [ih hk2]

theorem plabels_rollPerm {n k : ℕ} (hk : k < n) {L : List Char} (hL : L.length = n) :
    plabels (rollPerm n k) L = L.getD k ' ' :: L.eraseIdx k := by
  unfold plabels rollPerm
  rw [List.map_cons, ← hL]
  rw [map_getD_erase_range L ' ' (by rw [hL]; exact hk)]

/-! ### windspharm.tools: prep_data / recover_data -/

/-- numpy `rollaxis(a, k)`: move axis `k` to the front, keeping the other axes
in their relative order. -/
def rollaxis {α : Type} [Inhabited α] (a : NDArray α) (k : ℕ) : NDArray α :=
  transpose (rollPerm a.shape.length k) a

/-- numpy `reshape` of a C-contiguous array: reinterpret the shape over the
same flat data (callers only pass size-compatible shapes). -/
def reshape {α : Type} (a : NDArray α) (ns : List ℕ) : NDArray α := ⟨ns, a.data⟩

/-- `windspharm.tools.__order_dims`: roll the longitude axis then the latitude
axis to the front; positions are looked up in the lower-cased order string, the
presence check and the removal use the string as given. -/
def order_dims {α : Type} [Inhabited α] (d : NDArray α) (inorder : List Char) :
    Except String (NDArray α × List Char) :=
  if 'x' ∈ inorder ∧ 'y' ∈ inorder then
    let lonpos := (inorder.map Char.toLower).indexOf 'x'
    let latpos0 := (inorder.map Char.toLower).indexOf 'y'
    let d1 := rollaxis d lonpos
    let latpos := if latpos0 < lonpos then latpos0 + 1 else latpos0
    let d2 := rollaxis d1 latpos
    Except.ok (d2, 'y' :: 'x' :: ((inorder.filter (fun c => c != 'x')).filter (fun c => c != 'y')))
  else
    Except.error "a latitude-longitude grid is required"

/-- The recovery information dictionary built by `prep_data`. -/
structure PrepInfo where
  intermediate_shape : List ℕ
  intermediate_order : List Char
  original_order : List Char
deriving DecidableEq

/-- `windspharm.tools.prep_data`: reorder to (lat, lon, ...) and flatten the
trailing dimensions into one. -/
def prep_data {α : Type} [Inhabited α] (data : NDArray α) (dimorder : List Char) :
    Except String (NDArray α × PrepInfo) :=
  match order_dims data dimorder with
  | Except.error e => Except.error e
  | Except.ok (pdata, intorder) =>
      Except.ok (reshape pdata (pdata.shape.take 2 ++ [(pdata.shape.drop 2).prod]),
        ⟨pdata.shape, intorder, dimorder⟩)

/-- The roll loop of `windspharm.tools.recover_data`: roll each recorded axis
to the front, bumping the pending positions that the roll shifted right. -/
def recoverLoop {α : Type} [Inhabited α] (d : NDArray α) : List ℕ → NDArray α
  | [] => d
  | r :: rs => recoverLoop (rollaxis d r) (rs.map (fun x => if x < r then x + 1 else x))
termination_by rs => rs.length
decreasing_by simpa using Nat.lt_succ_self rs.length

/-- `windspharm.tools.recover_data`: restore the intermediate shape, then roll
the axes back into the original order. -/
def recover_data {α : Type} [Inhabited α] (pdata : NDArray α) (info : PrepInfo) : NDArray α :=
  recoverLoop (reshape pdata info.intermediate_shape)
    (info.original_order.reverse.map (fun c => info.intermediate_order.indexOf c))

/-- A dimension-order string is valid when it marks a latitude axis 'y' and a
longitude axis 'x' and no axis marker repeats (case-insensitively). -/
def validDimOrder (d : List Char) : Prop :=
  (d.map Char.toLower).Nodup ∧ 'x' ∈ d ∧ 'y' ∈ d

/-- Main loop invariant: rolling to the front, one after the other, the axes
currently labelled `cs.head`, `cs.tail.head`, ... produces the array obtained
by one transpose whose labels are `cs.reverse` followed by the unrolled labels
in their original order. -/
theorem recoverLoop_spec {α : Type} [Inhabited α] :
    ∀ (cs M : List Char) (a : NDArray α), a.wf → a.shape.length = M.length →
      M.Nodup → cs.Nodup → (∀ c ∈ cs, c ∈ M) →
      ∃ P, IsPermList P M.length ∧
        recoverLoop a (cs.map (fun c => M.indexOf c)) = transpose P a ∧
        plabels P M = cs.reverse ++ M.filter (fun c => decide (c ∉ cs)) := by
  intro cs
  induction cs with
  | nil =>
      intro M a hwf hlen hM _ _
      refine ⟨List.range M.length, List.Perm.refl _, ?_, ?_⟩
      · rw [List.map_nil, recoverLoop, transpose_range a hwf hlen]
      · have h1 : plabels (List.range M.length) M = M := map_getD_range M ' '
        have h2 : M.filter (fun c => decide (c ∉ ([] : List Char))) = M :=
          List.filter_eq_self.mpr (fun e _ => by simp)
        rw [h1, List.reverse_nil, List.nil_append, h2]
  | cons c cs ih =>
      intro M a hwf hlen hM hcs hsub
      have n := M.length
      have hcM : c ∈ M := hsub c (List.mem_cons_self c cs)
      have hr : M.indexOf c < M.length := List.indexOf_lt_length.mpr hcM
      have hMne : M ≠ [] := by
        intro h; rw [h] at hcM; cases hcM
      -- the rolled array and its labels
      have hroll : IsPermList (rollPerm M.length (M.indexOf c)) M.length :=
        rollPerm_isPerm hr
      have hM2nodup : (c :: M.erase c).Nodup := by
        rw [List.nodup_cons]
        exact ⟨hM.not_mem_erase, hM.erase c⟩
      have hM2len : (c :: M.erase c).length = M.length := by
        rw [List.length_cons, List.length_erase_of_mem hcM]
        have : 0 < M.length := List.length_pos.mpr hMne
        omega
      -- the pending roll positions translate to positions in the new labels
      have hmap : (cs.map (fun e => M.indexOf e)).map
            (fun x => if x < M.indexOf c then x + 1 else x)
          = cs.map (fun e => (c :: M.erase c).indexOf e) := by
        rw [List.map_map]
        apply List.map_congr_left
        intro e he
        have heM : e ∈ M := hsub e (List.mem_cons_of_mem c he)
        have hec : e ≠ c := by
          intro h
          exact (List.nodup_cons.mp hcs).1 (h ▸ he)
        simp only [Function.comp]
        rw [indexOf_cons_ite, if_neg (Ne.symm hec), indexOf_erase hcM heM hec]
        have hne := indexOf_ne_indexOf heM hcM hec
        by_cases hlt : M.indexOf e < M.indexOf c
        · rw [if_pos hlt, if_pos hlt]
        · rw [if_neg hlt, if_neg hlt]
          omega
      -- apply the induction hypothesis to the rolled array
      have har : (rollaxis a (M.indexOf c)).wf := transpose_wf _ _
      have harl : (rollaxis a (M.indexOf c)).shape.length = (c :: M.erase c).length := by
        rw [hM2len]
        unfold rollaxis
        rw [hlen]
        exact transpose_shape_length hroll a
      have hsub2 : ∀ e ∈ cs, e ∈ c :: M.erase c := by
        intro e he
        have heM : e ∈ M := hsub e (List.mem_cons_of_mem c he)
        have hec : e ≠ c := fun h => (List.nodup_cons.mp hcs).1 (h ▸ he)
        exact List.mem_cons_of_mem c (List.mem_erase_of_ne hec |>.mpr heM)
      obtain ⟨P, hP, hPeq, hPlab⟩ := ih (c :: M.erase c) (rollaxis a (M.indexOf c)) har harl
        hM2nodup (List.nodup_cons.mp hcs).2 hsub2
      rw [hM2len] at hP
      -- assemble the composed permutation
      refine ⟨pcomp (rollPerm M.length (M.indexOf c)) P, pcomp_isPerm hroll hP, ?_, ?_⟩
      · rw [List.map_cons, recoverLoop, hmap, hPeq]
        unfold rollaxis
        rw [hlen, transpose_transpose hroll hP a hlen]
      · rw [plabels_pcomp hroll hP rfl, plabels_rollPerm hr rfl]
        have hgd : M.getD (M.indexOf c) ' ' = c := getD_indexOf hcM ' '
        have her : M.eraseIdx (M.indexOf c) = M.erase c := List.eraseIdx_indexOf_eq_erase c M
        rw [hgd, her, hPlab]
        -- rearrange the label lists
        have hcnotcs : c ∉ cs := (List.nodup_cons.mp hcs).1
        have hfil : (c :: M.erase c).filter (fun e => decide (e ∉ cs))
            = c :: ((M.erase c).filter (fun e => decide (e ∉ cs))) := by
          rw [List.filter_cons, if_pos (by simpa using hcnotcs)]
        have hfil2 : (M.erase c).filter (fun e => decide (e ∉ cs))
            = M.filter (fun e => decide (e ∉ c :: cs)) := by
          rw [hM.erase_eq_filter, List.filter_filter]
          apply List.filter_congr
          intro e _
          by_cases hec : e = c
          · simp [hec]
          · simp [hec, List.mem_cons]
        rw [hfil, hfil2, List.reverse_cons, List.append_assoc]
        rfl

/-- An axis permutation acting as the identity on duplicate-free labels is the
identity permutation. -/
theorem perm_eq_range_of_plabels {Q : List ℕ} {n : ℕ} {L : List Char}
    (hQ : IsPermList Q n) (hL : L.length = n) (hnd : L.Nodup)
    (h : plabels Q L = L) : Q = List.range n := by
  apply List.ext_getElem
  · simp [hQ.length_eq]
  · intro t h1 h2
    have htn : t < n := by rw [hQ.length_eq] at h1; exact h1
    have hstep := congrArg (fun l => l.getD t ' ') h
    simp only [plabels] at hstep
    rw [getD_map_of_lt _ h1 0 ' '] at hstep
    have hQt : Q.getD t 0 < L.length := by rw [hL]; exact hQ.getD_lt htn
    have htL : t < L.length := by rw [hL]; exact htn
    rw [List.getD_eq_getElem L ' ' hQt, List.getD_eq_getElem L ' ' htL] at hstep
    have hinj := hnd.getElem_inj_iff.mp hstep
    rw [List.getElem_range, ← List.getD_eq_getElem Q 0 h1]
    exact hinj

/-- C1: for every well-formed array and every valid dimension-order string
marking one latitude and one longitude axis (hence rank at least 2),
`recover_data` applied to the output of `prep_data` returns the original
array exactly: identical shape, order and elements. -/
theorem prep_recover_roundtrip {α : Type} [Inhabited α] (a : NDArray α) (d : List Char)
    (hwf : a.wf) (hlen : d.length = a.shape.length) (hvalid : validDimOrder d) :
    (prep_data a d).bind (fun pi => Except.ok (recover_data pi.1 pi.2)) = Except.ok a := by
  obtain ⟨hnd, hx, hy⟩ := hvalid
  have hndd : d.Nodup := List.Nodup.of_map _ hnd
  have hxy : ('x' : Char) ≠ 'y' := by decide
  -- positions of the marker characters
  have hlx : (d.map Char.toLower).indexOf 'x' = d.indexOf 'x' :=
    indexOf_map_self hnd hx (by decide)
  have hly : (d.map Char.toLower).indexOf 'y' = d.indexOf 'y' :=
    indexOf_map_self hnd hy (by decide)
  have hx0 : d.indexOf 'x' < d.length := List.indexOf_lt_length.mpr hx
  have hy0 : d.indexOf 'y' < d.length := List.indexOf_lt_length.mpr hy
  have hxyne : d.indexOf 'x' ≠ d.indexOf 'y' := indexOf_ne_indexOf hx hy hxy
  have hn : a.shape.length = d.length := hlen.symm
  -- evaluate order_dims
  have hod : order_dims a d = Except.ok
      (rollaxis (rollaxis a (d.indexOf 'x'))
        (if d.indexOf 'y' < d.indexOf 'x' then d.indexOf 'y' + 1 else d.indexOf 'y'),
       'y' :: 'x' :: ((d.filter (fun c => c != 'x')).filter (fun c => c != 'y'))) := by
    unfold order_dims
    rw [if_pos (And.intro hx hy), hlx, hly]
  -- the latitude roll position
  set ypos := if d.indexOf 'y' < d.indexOf 'x' then d.indexOf 'y' + 1 else d.indexOf 'y'
    with hypos
  have hyposlt : ypos < d.length := by
    rw [hypos]
    by_cases hc : d.indexOf 'y' < d.indexOf 'x'
    · rw [if_pos hc]; omega
    · rw [if_neg hc]; exact hy0
  -- the two rolls as one transpose
  have hperm1 : IsPermList (rollPerm d.length (d.indexOf 'x')) d.length := rollPerm_isPerm hx0
  have hperm2 : IsPermList (rollPerm d.length ypos) d.length := rollPerm_isPerm hyposlt
  have hr1 : rollaxis a (d.indexOf 'x') = transpose (rollPerm d.length (d.indexOf 'x')) a := by
    unfold rollaxis; rw [hn]
  have hr1len : (transpose (rollPerm d.length (d.indexOf 'x')) a).shape.length = d.length :=
    transpose_shape_length hperm1 a
  have hr2 : rollaxis (rollaxis a (d.indexOf 'x')) ypos
      = transpose (pcomp (rollPerm d.length (d.indexOf 'x')) (rollPerm d.length ypos)) a := by
    rw [hr1]
    unfold rollaxis
    rw [hr1len]
    exact transpose_transpose hperm1 hperm2 a hn
  set Pprep := pcomp (rollPerm d.length (d.indexOf 'x')) (rollPerm d.length ypos) with hPprep
  have hPprepPerm : IsPermList Pprep d.length := pcomp_isPerm hperm1 hperm2
  -- labels after the two rolls
  have hM1 : plabels (rollPerm d.length (d.indexOf 'x')) d = 'x' :: d.erase 'x' := by
    rw [plabels_rollPerm hx0 rfl, getD_indexOf hx ' ', List.eraseIdx_indexOf_eq_erase]
  have hyerase : 'y' ∈ d.erase 'x' := (List.mem_erase_of_ne hxy.symm).mpr hy
  have hM1len : ('x' :: d.erase 'x').length = d.length := by
    rw [List.length_cons, List.length_erase_of_mem hx]
    have : 0 < d.length := List.length_pos.mpr (fun h => by rw [h] at hx; cases hx)
    omega
  have hyposM1 : ypos = ('x' :: d.erase 'x').indexOf 'y' := by
    rw [indexOf_cons_ite, if_neg hxy, indexOf_erase hx hy hxy.symm, hypos]
    by_cases hc : d.indexOf 'y' < d.indexOf 'x'
    · rw [if_pos hc, if_pos hc]
    · rw [if_neg hc, if_neg hc]
      omega
  have hyM1 : 'y' ∈ 'x' :: d.erase 'x' := List.mem_cons_of_mem _ hyerase
  have hM2 : plabels (rollPerm d.length ypos) ('x' :: d.erase 'x')
      = 'y' :: 'x' :: (d.erase 'x').erase 'y' := by
    rw [plabels_rollPerm hyposlt hM1len, hyposM1, getD_indexOf hyM1 ' ',
      List.eraseIdx_indexOf_eq_erase, List.erase_cons_tail (by decide)]
  have hPlabels : plabels Pprep d = 'y' :: 'x' :: (d.erase 'x').erase 'y' := by
    rw [hPprep, plabels_pcomp hperm1 hperm2 rfl, hM1, hM2]
  -- the recorded intermediate order equals the true labels
  have hfilter : (d.filter (fun c => c != 'x')).filter (fun c => c != 'y')
      = (d.erase 'x').erase 'y' := by
    rw [hndd.erase_eq_filter 'x', (hndd.filter _).erase_eq_filter 'y']
  set M2 := 'y' :: 'x' :: (d.erase 'x').erase 'y' with hM2def
  -- M2 is a permutation of d
  have hpermM2 : List.Perm M2 d := by
    have p1 : List.Perm d ('x' :: d.erase 'x') := List.perm_cons_erase hx
    have p2 : List.Perm (d.erase 'x') ('y' :: (d.erase 'x').erase 'y') :=
      List.perm_cons_erase hyerase
    have p3 : List.Perm d ('x' :: 'y' :: (d.erase 'x').erase 'y') := p1.trans (p2.cons 'x')
    have p4 : List.Perm ('x' :: 'y' :: (d.erase 'x').erase 'y') M2 := List.Perm.swap 'y' 'x' _
    exact (p3.trans p4).symm
  have hM2len : M2.length = d.length := hpermM2.length_eq
  have hM2nodup : M2.Nodup := (hpermM2.nodup_iff).mpr hndd
  -- apply the recovery loop lemma to the prepared array
  set d2 := transpose Pprep a with hd2
  have hd2wf : d2.wf := transpose_wf _ _
  have hd2len : d2.shape.length = M2.length := by
    rw [hM2len, hd2]
    exact transpose_shape_length hPprepPerm a
  have hrev : ∀ c ∈ d.reverse, c ∈ M2 := by
    intro c hc
    exact hpermM2.mem_iff.mpr (List.mem_reverse.mp hc)
  obtain ⟨P, hPperm, hPeq, hPlab⟩ := recoverLoop_spec d.reverse M2 d2 hd2wf hd2len hM2nodup
    (List.nodup_reverse.mpr hndd) hrev
  rw [hM2len] at hPperm
  -- the final labels are the original order
  have hfilnil : M2.filter (fun c => decide (c ∉ d.reverse)) = [] := by
    apply List.filter_eq_nil.mpr
    intro c hc
    simp only [decide_eq_true_eq, Decidable.not_not]
    exact List.mem_reverse.mpr (hpermM2.mem_iff.mp hc)
  rw [hfilnil, List.reverse_reverse, List.append_nil] at hPlab
  -- the composed permutation is the identity
  have hfinal : pcomp Pprep P = List.range d.length := by
    apply perm_eq_range_of_plabels (pcomp_isPerm hPprepPerm hPperm) rfl hndd
    rw [plabels_pcomp hPprepPerm hPperm rfl, hPlabels, hPlab]
  -- assemble
  unfold prep_data
  rw [hod]
  simp only [Except.bind]
  unfold recover_data
  have hreshape : reshape (reshape (rollaxis (rollaxis a (d.indexOf 'x')) ypos)
      ((rollaxis (rollaxis a (d.indexOf 'x')) ypos).shape.take 2 ++
        [((rollaxis (rollaxis a (d.indexOf 'x')) ypos).shape.drop 2).prod]))
      (rollaxis (rollaxis a (d.indexOf 'x')) ypos).shape
      = rollaxis (rollaxis a (d.indexOf 'x')) ypos := rfl
  rw [hreshape, hfilter, ← hM2def, hr2, hPeq, hd2,
    transpose_transpose hPprepPerm hPperm a hn, hfinal, transpose_range a hwf hn]

/-- C1 witness: the roundtrip at a concrete rank-3 array with order (time,
longitude, latitude). -/
theorem prep_recover_roundtrip_witness :
    (NDArray.wf ⟨[2, 2, 2], [0, 1, 2, 3, 4, 5, 6, 7]⟩ ∧
      (['t', 'x', 'y'] : List Char).length = ([2, 2, 2] : List ℕ).length ∧
      validDimOrder ['t', 'x', 'y']) ∧
    (prep_data (⟨[2, 2, 2], [0, 1, 2, 3, 4, 5, 6, 7]⟩ : NDArray ℕ) ['t', 'x', 'y']).bind
      (fun pi => Except.ok (recover_data pi.1 pi.2))
      = Except.ok ⟨[2, 2, 2], [0, 1, 2, 3, 4, 5, 6, 7]⟩ :=
  ⟨⟨by unfold NDArray.wf; decide, by decide, by unfold validDimOrder; decide⟩,
    prep_recover_roundtrip ⟨[2, 2, 2], [0, 1, 2, 3, 4, 5, 6, 7]⟩ ['t', 'x', 'y']
      (by unfold NDArray.wf; decide) (by decide) (by unfold validDimOrder; decide)⟩

/-! ### windspharm._common.get_apiorder -/

/-- `windspharm._common.get_apiorder`: start from `list(range(ndim))`, remove
the latitude and longitude entries, re-insert them at positions 0 and 1, and
return together with the list of positions of `0..ndim-1` inside that order. -/
def get_apiorder (ndim latitude_dim longitude_dim : ℕ) : List ℕ × List ℕ :=
  let apiorder := latitude_dim :: longitude_dim ::
    (((List.range ndim).erase latitude_dim).erase longitude_dim)
  (apiorder, (List.range ndim).map (fun i => apiorder.indexOf i))

/-- C6: `get_apiorder` puts the latitude axis first and the longitude axis
second, keeps the remaining axes in their original relative order, and the
returned `reorder` is the inverse permutation of `apiorder`: composing the two
(in either order, and as array transpositions) is the identity. -/
theorem get_apiorder_spec (n lat lon : ℕ) (hlat : lat < n) (hlon : lon < n)
    (hne : lat ≠ lon) :
    (get_apiorder n lat lon).1
        = lat :: lon :: ((List.range n).filter (fun i => i != lat && i != lon)) ∧
    IsPermList (get_apiorder n lat lon).1 n ∧
    pcomp (get_apiorder n lat lon).1 (get_apiorder n lat lon).2 = List.range n ∧
    pcomp (get_apiorder n lat lon).2 (get_apiorder n lat lon).1 = List.range n ∧
    (∀ (α : Type) (inst : Inhabited α) (a : NDArray α), a.wf → a.shape.length = n →
      transpose (get_apiorder n lat lon).2 (transpose (get_apiorder n lat lon).1 a) = a) := by
  have hlatmem : lat ∈ List.range n := by simpa using hlat
  have hlonmem : lon ∈ (List.range n).erase lat :=
    (List.mem_erase_of_ne (Ne.symm hne)).mpr (by simpa using hlon)
  set apiorder := lat :: lon :: (((List.range n).erase lat).erase lon) with hapi
  have hperm : IsPermList apiorder n := by
    have p1 : List.Perm (List.range n) (lat :: (List.range n).erase lat) :=
      List.perm_cons_erase hlatmem
    have p2 : List.Perm ((List.range n).erase lat)
        (lon :: ((List.range n).erase lat).erase lon) := List.perm_cons_erase hlonmem
    exact ((p1.trans (p2.cons lat))).symm
  have hfilterform : apiorder
      = lat :: lon :: ((List.range n).filter (fun i => i != lat && i != lon)) := by
    rw [hapi, (List.nodup_range n).erase_eq_filter lat,
      ((List.nodup_range n).filter _).erase_eq_filter lon, List.filter_filter]
    refine congrArg (fun l => lat :: lon :: l) (List.filter_congr ?_)
    intro x hx
    exact Bool.and_comm _ _
  set reorder := (List.range n).map (fun i => apiorder.indexOf i) with hreo
  have hreoget : ∀ t, t < n → reorder.getD t 0 = apiorder.indexOf t := by
    intro t ht
    rw [hreo]
    exact getD_map_range ht _ 0
  have h1 : pcomp apiorder reorder = List.range n := by
    apply List.ext_getElem
    · simp [pcomp, hreo]
    · intro i hi1 hi2
      have hin : i < n := by simpa using hi2
      rw [← List.getD_eq_getElem _ 0 hi1, List.getElem_range]
      unfold pcomp
      rw [getD_map_of_lt _ (by simpa [hreo] using hin) 0 0, hreoget i hin,
        hperm.getD_at_indexOf hin]
  have h2 : pcomp reorder apiorder = List.range n := by
    apply List.ext_getElem
    · simp [pcomp, hperm.length_eq]
    · intro s hs1 hs2
      have hsn : s < n := by simpa using hs2
      rw [← List.getD_eq_getElem _ 0 hs1, List.getElem_range]
      unfold pcomp
      rw [getD_map_of_lt _ (by rw [hperm.length_eq]; exact hsn) 0 0,
        hreoget _ (hperm.getD_lt hsn), hperm.indexOf_getD hsn]
  have hreoperm : IsPermList reorder n := by
    have hnodup : reorder.Nodup := by
      rw [hreo]
      apply (List.nodup_range n).map_on
      intro i hi j hj hij
      have hi2 : i ∈ apiorder := hperm.mem_iff.mpr (by simpa using hi)
      have hj2 : j ∈ apiorder := hperm.mem_iff.mpr (by simpa using hj)
      by_contra hcon
      exact indexOf_ne_indexOf hi2 hj2 hcon hij
    have hsub : reorder ⊆ List.range n := by
      intro t ht
      rw [hreo] at ht
      obtain ⟨i, hi, hit⟩ := List.mem_map.mp ht
      rw [← hit]
      simpa using hperm.indexOf_lt (by simpa using hi)
    have hlen : (List.range n).length ≤ reorder.length := by simp [hreo]
    exact (List.subperm_of_subset hnodup hsub).perm_of_length_le hlen
  refine ⟨hfilterform, hperm, h1, h2, ?_⟩
  intro α inst a hwf hal
  show transpose reorder (transpose apiorder a) = a
  rw [transpose_transpose hperm hreoperm a hal, h1, transpose_range a hwf hal]

/-- C6 witness: `get_apiorder` at `ndim = 4`, latitude axis 2, longitude
axis 0. -/
theorem get_apiorder_spec_witness :
    ((2 : ℕ) < 4 ∧ (0 : ℕ) < 4 ∧ (2 : ℕ) ≠ 0) ∧
    (get_apiorder 4 2 0).1 = 2 :: 0 :: ((List.range 4).filter (fun i => i != 2 && i != 0)) ∧
    pcomp (get_apiorder 4 2 0).1 (get_apiorder 4 2 0).2 = List.range 4 ∧
    pcomp (get_apiorder 4 2 0).2 (get_apiorder 4 2 0).1 = List.range 4 :=
  ⟨⟨by decide, by decide, by decide⟩,
    (get_apiorder_spec 4 2 0 (by decide) (by decide) (by decide)).1,
    (get_apiorder_spec 4 2 0 (by decide) (by decide) (by decide)).2.2.1,
    (get_apiorder_spec 4 2 0 (by decide) (by decide) (by decide)).2.2.2.1⟩

/-! ### Grid-type inspection -/

/-- The Gaussian-latitude table of the external transform library
(`spharm.gaussian_lats_wts` / `cdms2.createGaussianAxis`), abstracted to a
table of `n` latitudes per grid size `n`. -/
structure GaussTable where
  lats : ℕ → List ℚ
  length_lats : ∀ n, (lats n).length = n

/-- Tolerance of `inspect_gridtype` (5e-4, in degrees). -/
def tolerance : ℚ := 5 / 10000

/-- `np.abs(np.diff(latitudes))`: absolute successive differences. -/
def absDiffs (l : List ℚ) : List ℚ :=
  (l.zip l.tail).map (fun p => |p.2 - p.1|)

/-- numpy `linspace a b n`: `n` evenly spaced samples from `a` to `b`. -/
def linspace (a b : ℚ) (n : ℕ) : List ℚ :=
  (List.range n).map (fun i : ℕ => a + (i : ℚ) * ((b - a) / ((n : ℚ) - 1)))

/-- The reference equally-spaced global latitudes used by `inspect_gridtype`:
pole to pole for an odd count, half-grid-cell offset for an even count. -/
def equalReference (nlat : ℕ) : List ℚ :=
  if nlat % 2 = 1 then linspace 90 (-90) nlat
  else linspace (90 - (180 / (nlat : ℚ)) / 2) (-90 + (180 / (nlat : ℚ)) / 2) nlat

/-- `windspharm._common.inspect_gridtype`: classify a latitude sequence as
'regular' or 'gaussian', raising otherwise.  The source tests the
not-equally-spaced branch first; both branches compare the signed latitude
values against the reference within the tolerance. -/
def inspect_gridtype (G : GaussTable) (latitudes : List ℚ) : Except String String :=
  let nlat := latitudes.length
  let diffs := absDiffs latitudes
  let equally_spaced := diffs.all (fun x => |x - diffs.headD 0| < tolerance)
  if equally_spaced then
    if (List.zipWith (fun a b => |a - b|) latitudes (equalReference nlat)).any
        (fun x => tolerance < x) then
      Except.error "equally-spaced latitudes are invalid (they may be non-global)"
    else Except.ok "regular"
  else
    if (List.zipWith (fun a b => |a - b|) latitudes (G.lats nlat)).any
        (fun x => tolerance < x) then
      Except.error "latitudes are neither equally-spaced or Gaussian"
    else Except.ok "gaussian"

/-- The spec-side reading of the uniform-spacing test: every absolute
successive difference is within tolerance of the first one. -/
def equallySpacedProp (l : List ℚ) : Prop :=
  ∀ i, i + 1 < l.length →
    |(|l.getD (i + 1) 0 - l.getD i 0|) - (|l.getD 1 0 - l.getD 0 0|)| < tolerance

/-- The spec-side reading of the element-wise reference comparison. -/
def withinTol (l ref : List ℚ) : Prop :=
  ∀ i, i < l.length → |l.getD i 0 - ref.getD i 0| ≤ tolerance

theorem length_linspace (a b : ℚ) (n : ℕ) : (linspace a b n).length = n := by
  simp [linspace]

theorem getD_linspace {n i : ℕ} (hi : i < n) (a b : ℚ) :
    (linspace a b n).getD i 0 = a + i * ((b - a) / ((n : ℚ) - 1)) := by
  unfold linspace
  exact getD_map_range hi _ 0

theorem length_absDiffs (l : List ℚ) : (absDiffs l).length = l.length - 1 := by
  simp only [absDiffs, List.length_map, List.length_zip, List.length_tail]
  omega

theorem getD_absDiffs {l : List ℚ} {i : ℕ} (h : i + 1 < l.length) :
    (absDiffs l).getD i 0 = |l.getD (i + 1) 0 - l.getD i 0| := by
  have hz : i < (l.zip l.tail).length := by
    simp only [List.length_zip, List.length_tail]
    omega
  unfold absDiffs
  rw [getD_map_of_lt _ hz (0, 0) 0]
  have h1 : (l.zip l.tail).getD i (0, 0) = (l.getD i 0, l.tail.getD i 0) := by
    rw [List.getD_eq_getElem _ _ hz, List.getElem_zip,
      List.getD_eq_getElem l 0 (by omega),
      List.getD_eq_getElem l.tail 0 (by simp only [List.length_tail]; omega)]
  have h2 : l.tail.getD i 0 = l.getD (i + 1) 0 := by
    rw [List.getD_eq_getElem l.tail 0 (by simp only [List.length_tail]; omega),
      List.getD_eq_getElem l 0 h, List.getElem_tail]
  rw [h1, h2]

theorem headD_eq_getD (l : List ℚ) (d : ℚ) : l.headD d = l.getD 0 d := by
  cases l <;> rfl

theorem all_iff_getD {α : Type} (l : List α) (p : α → Bool) (d : α) :
    l.all p = true ↔ ∀ i, i < l.length → p (l.getD i d) = true := by
  rw [List.all_eq_true]
  constructor
  · intro h i hi
    rw [List.getD_eq_getElem l d hi]
    exact h _ (List.getElem_mem hi)
  · intro h x hx
    obtain ⟨i, hi, hxe⟩ := List.mem_iff_getElem.mp hx
    rw [← hxe, ← List.getD_eq_getElem l d hi]
    exact h i hi

theorem any_iff_getD {α : Type} (l : List α) (p : α → Bool) (d : α) :
    l.any p = true ↔ ∃ i, i < l.length ∧ p (l.getD i d) = true := by
  rw [List.any_eq_true]
  constructor
  · intro ⟨x, hx, hpx⟩
    obtain ⟨i, hi, hxe⟩ := List.mem_iff_getElem.mp hx
    refine ⟨i, hi, ?_⟩
    rw [List.getD_eq_getElem l d hi, hxe]
    exact hpx
  · intro ⟨i, hi, hp⟩
    refine ⟨l.getD i d, ?_, hp⟩
    rw [List.getD_eq_getElem l d hi]
    exact List.getElem_mem hi

theorem getD_zipWith {α : Type} (f : α → α → α) {l r : List α} {i : ℕ}
    (hl : i < l.length) (hr : i < r.length) (d : α) :
    (List.zipWith f l r).getD i d = f (l.getD i d) (r.getD i d) := by
  rw [List.getD_eq_getElem _ d (by rw [List.length_zipWith]; omega),
    List.getD_eq_getElem l d hl, List.getD_eq_getElem r d hr, List.getElem_zipWith]

/-- The element-wise reference test of `inspect_gridtype`, as a quantifier:
no element differs from the reference by more than the tolerance. -/
theorem any_tol_iff {l ref : List ℚ} (hlen : ref.length = l.length) :
    (List.zipWith (fun a b => |a - b|) l ref).any (fun x => tolerance < x) = false ↔
      withinTol l ref := by
  have hzl : (List.zipWith (fun a b => |a - b|) l ref).length = l.length := by
    rw [List.length_zipWith, hlen, Nat.min_self]
  rw [← Bool.not_eq_true, any_iff_getD _ _ 0]
  unfold withinTol
  constructor
  · intro h i hi
    by_contra hc
    apply h
    refine ⟨i, by rw [hzl]; exact hi, ?_⟩
    rw [getD_zipWith _ hi (by omega) 0]
    simpa using hc
  · intro h hc
    obtain ⟨i, hi, hp⟩ := hc
    rw [hzl] at hi
    rw [getD_zipWith _ hi (by omega) 0] at hp
    exact absurd (h i hi) (by simpa using hp)

/-- The uniform-spacing test of `inspect_gridtype`, as a quantifier. -/
theorem equally_spaced_iff {l : List ℚ} (h2 : 2 ≤ l.length) :
    ((absDiffs l).all (fun x => |x - (absDiffs l).headD 0| < tolerance) = true) ↔
      equallySpacedProp l := by
  rw [all_iff_getD _ _ 0]
  unfold equallySpacedProp
  have hhead : (absDiffs l).headD 0 = |l.getD 1 0 - l.getD 0 0| := by
    rw [headD_eq_getD, getD_absDiffs (by omega)]
  constructor
  · intro h i hi
    have := h i (by rw [length_absDiffs]; omega)
    rw [getD_absDiffs hi, hhead] at this
    simpa using this
  · intro h i hi
    rw [length_absDiffs] at hi
    have := h i (by omega)
    rw [getD_absDiffs (by omega), hhead]
    simpa using this

theorem length_equalReference (n : ℕ) : (equalReference n).length = n := by
  unfold equalReference
  split <;> rw [length_linspace]

/-- C2: for latitude sequences of length at least 2, `inspect_gridtype`
returns 'regular' exactly when the successive absolute differences all equal
the first one within tolerance 5e-4 and the values match the reference
equally-spaced global sequence element-wise within tolerance; returns
'gaussian' exactly when the differences are not uniform and the values match
the reference Gaussian latitudes element-wise within tolerance; and raises in
every other case. -/
theorem inspect_gridtype_spec (G : GaussTable) (lats : List ℚ) (h2 : 2 ≤ lats.length) :
    (inspect_gridtype G lats = Except.ok "regular" ↔
      equallySpacedProp lats ∧ withinTol lats (equalReference lats.length)) ∧
    (inspect_gridtype G lats = Except.ok "gaussian" ↔
      ¬ equallySpacedProp lats ∧ withinTol lats (G.lats lats.length)) ∧
    ((∃ msg, inspect_gridtype G lats = Except.error msg) ↔
      ¬ (equallySpacedProp lats ∧ withinTol lats (equalReference lats.length)) ∧
      ¬ (¬ equallySpacedProp lats ∧ withinTol lats (G.lats lats.length))) := by
  have hregref : (equalReference lats.length).length = lats.length := length_equalReference _
  have hgref : (G.lats lats.length).length = lats.length := G.length_lats _
  by_cases hES : (absDiffs lats).all (fun x => |x - (absDiffs lats).headD 0| < tolerance) = true
  · have hESP : equallySpacedProp lats := (equally_spaced_iff h2).mp hES
    by_cases hAny : (List.zipWith (fun a b => |a - b|) lats
        (equalReference lats.length)).any (fun x => tolerance < x) = true
    · have hval : inspect_gridtype G lats
          = Except.error "equally-spaced latitudes are invalid (they may be non-global)" := by
        simp only [inspect_gridtype]
        rw [if_pos hES, if_pos hAny]
      have hnw : ¬ withinTol lats (equalReference lats.length) := by
        intro hw
        rw [← any_tol_iff hregref] at hw
        rw [hw] at hAny
        cases hAny
      refine ⟨?_, ?_, ?_⟩ <;> simp [hval, hESP, hnw]
    · have hAnyF := Bool.not_eq_true _ ▸ hAny
      have hw : withinTol lats (equalReference lats.length) := (any_tol_iff hregref).mp hAnyF
      have hval : inspect_gridtype G lats = Except.ok "regular" := by
        simp only [inspect_gridtype]
        rw [if_pos hES, if_neg hAny]
      refine ⟨?_, ?_, ?_⟩ <;> simp [hval, hESP, hw]
  · have hESP : ¬ equallySpacedProp lats := fun h => hES ((equally_spaced_iff h2).mpr h)
    by_cases hAny : (List.zipWith (fun a b => |a - b|) lats
        (G.lats lats.length)).any (fun x => tolerance < x) = true
    · have hval : inspect_gridtype G lats
          = Except.error "latitudes are neither equally-spaced or Gaussian" := by
        simp only [inspect_gridtype]
        rw [if_neg hES, if_pos hAny]
      have hnw : ¬ withinTol lats (G.lats lats.length) := by
        intro hw
        rw [← any_tol_iff hgref] at hw
        rw [hw] at hAny
        cases hAny
      refine ⟨?_, ?_, ?_⟩ <;> simp [hval, hESP, hnw]
    · have hAnyF := Bool.not_eq_true _ ▸ hAny
      have hw : withinTol lats (G.lats lats.length) := (any_tol_iff hgref).mp hAnyF
      have hval : inspect_gridtype G lats = Except.ok "gaussian" := by
        simp only [inspect_gridtype]
        rw [if_neg hES, if_neg hAny]
      refine ⟨?_, ?_, ?_⟩ <;> simp [hval, hESP, hw]

/-- A placeholder Gaussian-latitude table, usable where the inspected code
path never consults the table. -/
def gauss0 : GaussTable := ⟨fun n => List.replicate n 0, fun n => List.length_replicate n 0⟩

/-- C2 witness: the characterization applied to the 3-point pole-to-pole
regular grid. -/
theorem inspect_gridtype_spec_witness :
    2 ≤ ([90, 0, -90] : List ℚ).length ∧
    (inspect_gridtype gauss0 [90, 0, -90] = Except.ok "regular" ↔
      equallySpacedProp [90, 0, -90] ∧
      withinTol [90, 0, -90] (equalReference ([90, 0, -90] : List ℚ).length)) :=
  ⟨by decide, (inspect_gridtype_spec gauss0 [90, 0, -90] (by decide)).1⟩

theorem equalReference_three : equalReference 3 = [90, 0, -90] := by
  unfold equalReference linspace
  rw [if_pos (by decide), (by decide : List.range 3 = [0, 1, 2])]
  norm_num

theorem absDiffs_desc : absDiffs [90, 0, -90] = [90, 90] := by
  unfold absDiffs
  norm_num [List.zip]

theorem absDiffs_asc : absDiffs [-90, 0, 90] = [90, 90] := by
  unfold absDiffs
  norm_num [List.zip]

/-- C3 counterexample: `inspect_gridtype` accepts the descending 3-point
regular grid but rejects its reversal (which here coincides with its
sign-flip), because the element-wise comparison is against the signed
north-to-south reference, not against `abs(latitude)`.  Both evaluations stay
in the equally-spaced branch, so the Gaussian-table placeholder is never
consulted. -/
theorem inspect_gridtype_reversal_counterexample :
    inspect_gridtype gauss0 [90, 0, -90] = Except.ok "regular" ∧
    inspect_gridtype gauss0 (([90, 0, -90] : List ℚ).reverse)
      = Except.error "equally-spaced latitudes are invalid (they may be non-global)" ∧
    ([90, 0, -90] : List ℚ).reverse = ([90, 0, -90] : List ℚ).map (fun x => -x) := by
  have hrev : ([90, 0, -90] : List ℚ).reverse = [-90, 0, 90] := by norm_num
  refine ⟨?_, ?_, ?_⟩
  · simp only [inspect_gridtype]
    norm_num [absDiffs_desc, equalReference_three, tolerance]
  · rw [hrev]
    simp only [inspect_gridtype]
    norm_num [absDiffs_asc, equalReference_three, tolerance]
  · rw [hrev]
    norm_num

/-- `VectorWind._gridtype` of the cdms metadata interface (src/lib/cdms.py):
tolerance 0.001, and the element-wise reference comparisons use
`abs(latitude)` against `abs(reference)`.  The Gaussian axis produced by the
external `cdms2.createGaussianAxis` is abstracted by `G`. -/
def gridtype_cdms (G : GaussTable) (lat : List ℚ) : Except String String :=
  let nlat := lat.length
  let d := absDiffs lat
  if d.any (fun x => (1 : ℚ) / 1000 < |x - d.headD 0|) then
    if (List.zipWith (fun a b => |(|a|) - (|b|)|) lat (G.lats nlat)).any
        (fun x => (1 : ℚ) / 1000 < x) then
      Except.error "non-evenly-spaced latitudes are not Gaussian"
    else Except.ok "gaussian"
  else
    let eax := if nlat % 2 = 1 then linspace (-90) 90 nlat
      else linspace (-90 + (180 / (nlat : ℚ)) / 2) (90 - (180 / (nlat : ℚ)) / 2) nlat
    if (List.zipWith (fun a b => |(|a|) - (|b|)|) lat eax).any
        (fun x => (1 : ℚ) / 1000 < x) then
      Except.error "evenly-spaced grid is invalid"
    else Except.ok "regular"

theorem map_tail {α β : Type} (f : α → β) (l : List α) : (l.map f).tail = l.tail.map f := by
  cases l <;> simp

theorem absDiffs_neg (l : List ℚ) : absDiffs (l.map (fun x => -x)) = absDiffs l := by
  unfold absDiffs
  rw [map_tail, List.zip_map, List.map_map]
  apply List.map_congr_left
  intro p _
  show |(-p.2) - (-p.1)| = |p.2 - p.1|
  rw [show (-p.2) - (-p.1) = -(p.2 - p.1) by ring, abs_neg]

/-- C3 amended: the order-insensitive, `abs(latitude)`-based comparison is the
cdms `VectorWind._gridtype`, and for it a sign-flipped latitude sequence
yields the same outcome (same grid type or same failure). -/
theorem gridtype_cdms_signflip_invariant (G : GaussTable) (lat : List ℚ) :
    gridtype_cdms G (lat.map (fun x => -x)) = gridtype_cdms G lat := by
  have hz : ∀ r : List ℚ,
      List.zipWith (fun a b => |(|a|) - (|b|)|) (lat.map (fun x => -x)) r
        = List.zipWith (fun a b => |(|a|) - (|b|)|) lat r := by
    intro r
    rw [List.zipWith_map_left]
    simp only [abs_neg]
  simp only [gridtype_cdms, List.length_map, absDiffs_neg, hz]

/-! ### windspharm.standard.VectorWind: the diagnostic engine -/

/-- The operations consumed from the external `spharm.Spharmt` transform
object (the external library is not part of this repository; grid fields and
spectral coefficients are abstract values of type `α`). -/
structure SpharmtOps (α : Type) where
  getvrtdivspec : α → α → Option ℕ → α × α
  spectogrd : α → α
  getpsichi : α → α → Option ℕ → α × α
  grdtospec : α → Option ℕ → α
  getgrad : α → α × α

/-- A constructed `windspharm.standard.VectorWind`: the validated wind
components and the transform object. -/
structure StdVectorWind (α : Type) where
  u : α
  v : α
  s : SpharmtOps α

/-- `VectorWind.vrtdiv`: spectral vorticity/divergence of (u, v), inverse
transformed to grids. -/
def StdVectorWind.vrtdiv {α : Type} (w : StdVectorWind α) (truncation : Option ℕ) : α × α :=
  let (vrtspec, divspec) := w.s.getvrtdivspec w.u w.v truncation
  (w.s.spectogrd vrtspec, w.s.spectogrd divspec)

/-- `VectorWind.vorticity`: recomputes the spectral pair and returns the
vorticity grid. -/
def StdVectorWind.vorticity {α : Type} (w : StdVectorWind α) (truncation : Option ℕ) : α :=
  let (vrtspec, _divspec) := w.s.getvrtdivspec w.u w.v truncation
  w.s.spectogrd vrtspec

/-- `VectorWind.divergence`: recomputes the spectral pair and returns the
divergence grid. -/
def StdVectorWind.divergence {α : Type} (w : StdVectorWind α) (truncation : Option ℕ) : α :=
  let (_vrtspec, divspec) := w.s.getvrtdivspec w.u w.v truncation
  w.s.spectogrd divspec

/-- `VectorWind.sfvp`: streamfunction and velocity potential. -/
def StdVectorWind.sfvp {α : Type} (w : StdVectorWind α) (truncation : Option ℕ) : α × α :=
  w.s.getpsichi w.u w.v truncation

/-- `VectorWind.streamfunction`: delegates to `sfvp` and keeps the first
component. -/
def StdVectorWind.streamfunction {α : Type} (w : StdVectorWind α) (truncation : Option ℕ) : α :=
  let (psigrid, _chigrid) := w.sfvp truncation
  psigrid

/-- `VectorWind.velocitypotential`: delegates to `sfvp` and keeps the second
component. -/
def StdVectorWind.velocitypotential {α : Type} (w : StdVectorWind α)
    (truncation : Option ℕ) : α :=
  let (_psigrid, chigrid) := w.sfvp truncation
  chigrid

/-- `VectorWind.helmholtz`: both Helmholtz components.  `getgrad` of the
streamfunction spectral coefficients is unpacked as `(vpsi, upsi)` and the
returned non-divergent pair is `(-upsi, vpsi)`. -/
def StdVectorWind.helmholtz {α : Type} [Neg α] (w : StdVectorWind α)
    (truncation : Option ℕ) : α × α × α × α :=
  let (psigrid, chigrid) := w.s.getpsichi w.u w.v truncation
  let psispec := w.s.grdtospec psigrid Option.none
  let chispec := w.s.grdtospec chigrid Option.none
  let (vpsi, upsi) := w.s.getgrad psispec
  let (uchi, vchi) := w.s.getgrad chispec
  (uchi, vchi, -upsi, vpsi)

/-- `VectorWind.irrotationalcomponent`: recomputes only the velocity-potential
half. -/
def StdVectorWind.irrotationalcomponent {α : Type} (w : StdVectorWind α)
    (truncation : Option ℕ) : α × α :=
  let (_psigrid, chigrid) := w.s.getpsichi w.u w.v truncation
  let chispec := w.s.grdtospec chigrid Option.none
  w.s.getgrad chispec

/-- `VectorWind.nondivergentcomponent`: recomputes only the streamfunction
half; returns `(-upsi, vpsi)` from `(vpsi, upsi) = getgrad(psispec)`. -/
def StdVectorWind.nondivergentcomponent {α : Type} [Neg α] (w : StdVectorWind α)
    (truncation : Option ℕ) : α × α :=
  let (psigrid, _chigrid) := w.s.getpsichi w.u w.v truncation
  let psispec := w.s.grdtospec psigrid Option.none
  let (vpsi, upsi) := w.s.getgrad psispec
  (-upsi, vpsi)

/-- C4: `helmholtz` returns the value of `irrotationalcomponent` as its first
two fields and the value of `nondivergentcomponent` as its last two, and the
non-divergent pair is the streamfunction gradient pair with the first-returned
(zonal-position) member negated and the other member unnegated. -/
theorem helmholtz_components {α : Type} [Neg α] (w : StdVectorWind α) (t : Option ℕ) :
    ((w.helmholtz t).1, (w.helmholtz t).2.1) = w.irrotationalcomponent t ∧
    ((w.helmholtz t).2.2.1, (w.helmholtz t).2.2.2) = w.nondivergentcomponent t ∧
    w.nondivergentcomponent t =
      (-(w.s.getgrad (w.s.grdtospec (w.s.getpsichi w.u w.v t).1 Option.none)).2,
        (w.s.getgrad (w.s.grdtospec (w.s.getpsichi w.u w.v t).1 Option.none)).1) :=
  ⟨rfl, rfl, rfl⟩

/-- C5: the single-output diagnostics are the projections of the
pair-producing ones: `vorticity = vrtdiv.1`, `divergence = vrtdiv.2`,
`streamfunction = sfvp.1`, `velocitypotential = sfvp.2`. -/
theorem single_output_projections {α : Type} (w : StdVectorWind α) (t : Option ℕ) :
    w.vorticity t = (w.vrtdiv t).1 ∧
    w.divergence t = (w.vrtdiv t).2 ∧
    w.streamfunction t = (w.sfvp t).1 ∧
    w.velocitypotential t = (w.sfvp t).2 :=
  ⟨rfl, rfl, rfl, rfl⟩

/-! ### windspharm.standard.VectorWind.__init__ : input validation -/

/-- A wind-component cell: `Option.none` stands for a masked cell or a NaN
(the constructor mask-fills to NaN and then detects NaN, so the two are
indistinguishable afterwards). -/
def hasMissing (a : NDArray (Option ℚ)) : Bool := a.data.any (fun x => x.isNone)

/-- The stored component arrays after the missing-value scan (all cells
present on the success path). -/
def fillValues (a : NDArray (Option ℚ)) : NDArray ℚ :=
  ⟨a.shape, a.data.map (fun x => x.getD 0)⟩

/-- Modelled from the spec: construction of the external `spharm.Spharmt`
transform object (not part of this repository) fails when `nlon < 4`,
`nlat < 3`, or the grid type is not one of 'regular'/'gaussian'. -/
def spharmtOk (nlon nlat : ℕ) (gridtype : String) : Bool :=
  decide (4 ≤ nlon) && decide (3 ≤ nlat) &&
    (gridtype == "regular" || gridtype == "gaussian")

/-- The validated state of a standard-interface VectorWind. -/
structure VWCore where
  u : NDArray ℚ
  v : NDArray ℚ
  gridtype : String
  nlat : ℕ
  nlon : ℕ
deriving DecidableEq

/-- `windspharm.standard.VectorWind.__init__`: in source order, scan both
components for missing values, compare the shapes, check the rank, then build
the `Spharmt` object from `(nlon, nlat, gridtype.lower())`, mapping its
failure to the grid-type or grid-dimension message.  (The source formats the
offending grid type with `repr`; the quoting is not reproduced here.) -/
def vectorWindInit (u v : NDArray (Option ℚ)) (gridtype : String) :
    Except String VWCore :=
  if hasMissing u || hasMissing v then
    Except.error "u and v cannot contain missing values"
  else if u.shape ≠ v.shape then
    Except.error "u and v must be the same shape"
  else if u.shape.length ≠ 2 ∧ u.shape.length ≠ 3 then
    Except.error "u and v must be rank 2 or 3 arrays"
  else
    let nlat := u.shape.getD 0 0
    let nlon := u.shape.getD 1 0
    let gt := gridtype.toLower
    if spharmtOk nlon nlat gt then
      Except.ok ⟨fillValues u, fillValues v, gt, nlat, nlon⟩
    else if gt ≠ "regular" ∧ gt ≠ "gaussian" then
      Except.error ("invalid grid type: " ++ gridtype)
    else
      Except.error "invalid input dimensions"

/-- C7: standard-interface construction fails exactly when a precondition is
violated, with the error determined by the first failing check: missing
values, then shape mismatch, then rank, then the grid-type /
grid-dimension checks of the transform constructor; it succeeds whenever all
preconditions hold. -/
theorem vectorWindInit_spec (u v : NDArray (Option ℚ)) (g : String) :
    ((∃ w, vectorWindInit u v g = Except.ok w) ↔
      ((hasMissing u || hasMissing v) = false ∧ u.shape = v.shape ∧
        (u.shape.length = 2 ∨ u.shape.length = 3) ∧
        spharmtOk (u.shape.getD 1 0) (u.shape.getD 0 0) g.toLower = true)) ∧
    ((hasMissing u || hasMissing v) = true →
      vectorWindInit u v g = Except.error "u and v cannot contain missing values") ∧
    ((hasMissing u || hasMissing v) = false → u.shape ≠ v.shape →
      vectorWindInit u v g = Except.error "u and v must be the same shape") ∧
    ((hasMissing u || hasMissing v) = false → u.shape = v.shape →
      ¬ (u.shape.length = 2 ∨ u.shape.length = 3) →
      vectorWindInit u v g = Except.error "u and v must be rank 2 or 3 arrays") ∧
    ((hasMissing u || hasMissing v) = false → u.shape = v.shape →
      (u.shape.length = 2 ∨ u.shape.length = 3) →
      ¬ (g.toLower = "regular" ∨ g.toLower = "gaussian") →
      vectorWindInit u v g = Except.error ("invalid grid type: " ++ g)) ∧
    ((hasMissing u || hasMissing v) = false → u.shape = v.shape →
      (u.shape.length = 2 ∨ u.shape.length = 3) →
      (g.toLower = "regular" ∨ g.toLower = "gaussian") →
      spharmtOk (u.shape.getD 1 0) (u.shape.getD 0 0) g.toLower = false →
      vectorWindInit u v g = Except.error "invalid input dimensions") := by
  have herr1 : ∀ h1 : (hasMissing u || hasMissing v) = true,
      vectorWindInit u v g = Except.error "u and v cannot contain missing values" := by
    intro h1
    simp only [vectorWindInit]
    rw [if_pos h1]
  have herr2 : ∀ (_ : (hasMissing u || hasMissing v) = false) (_ : u.shape ≠ v.shape),
      vectorWindInit u v g = Except.error "u and v must be the same shape" := by
    intro h1 h2
    simp only [vectorWindInit]
    rw [if_neg (by simp [h1]), if_pos h2]
  have herr3 : ∀ (_ : (hasMissing u || hasMissing v) = false) (_ : u.shape = v.shape)
      (_ : ¬ (u.shape.length = 2 ∨ u.shape.length = 3)),
      vectorWindInit u v g = Except.error "u and v must be rank 2 or 3 arrays" := by
    intro h1 h2 h3
    simp only [vectorWindInit]
    rw [if_neg (by simp [h1]), if_neg (by simp [h2]), if_pos (by tauto)]
  have herr4 : ∀ (_ : (hasMissing u || hasMissing v) = false) (_ : u.shape = v.shape)
      (_ : u.shape.length = 2 ∨ u.shape.length = 3)
      (_ : ¬ (g.toLower = "regular" ∨ g.toLower = "gaussian")),
      vectorWindInit u v g = Except.error ("invalid grid type: " ++ g) := by
    intro h1 h2 h3 h4
    have hsp : spharmtOk (u.shape.getD 1 0) (u.shape.getD 0 0) g.toLower = false := by
      simp only [spharmtOk, Bool.and_eq_false_iff, Bool.or_eq_false_iff]
      right
      constructor <;> simp only [beq_eq_false_iff_ne, ne_eq] <;> tauto
    simp only [vectorWindInit]
    rw [if_neg (by simp [h1]), if_neg (by simp [h2]), if_neg (by tauto),
      if_neg (by rw [hsp]; exact Bool.false_ne_true), if_pos (by tauto)]
  have herr5 : ∀ (_ : (hasMissing u || hasMissing v) = false) (_ : u.shape = v.shape)
      (_ : u.shape.length = 2 ∨ u.shape.length = 3)
      (_ : g.toLower = "regular" ∨ g.toLower = "gaussian")
      (_ : spharmtOk (u.shape.getD 1 0) (u.shape.getD 0 0) g.toLower = false),
      vectorWindInit u v g = Except.error "invalid input dimensions" := by
    intro h1 h2 h3 h4 h5
    simp only [vectorWindInit]
    rw [if_neg (by simp [h1]), if_neg (by simp [h2]), if_neg (by tauto),
      if_neg (by rw [h5]; exact Bool.false_ne_true), if_neg (by tauto)]
  have hok : ∀ (_ : (hasMissing u || hasMissing v) = false) (_ : u.shape = v.shape)
      (_ : u.shape.length = 2 ∨ u.shape.length = 3)
      (_ : spharmtOk (u.shape.getD 1 0) (u.shape.getD 0 0) g.toLower = true),
      vectorWindInit u v g = Except.ok
        ⟨fillValues u, fillValues v, g.toLower, u.shape.getD 0 0, u.shape.getD 1 0⟩ := by
    intro h1 h2 h3 h4
    simp only [vectorWindInit]
    rw [if_neg (by simp [h1]), if_neg (by simp [h2]), if_neg (by tauto), if_pos h4]
  refine ⟨?_, herr1, herr2, herr3, herr4, herr5⟩
  constructor
  · intro ⟨w, hw⟩
    by_cases h1 : (hasMissing u || hasMissing v) = true
    · rw [herr1 h1] at hw; cases hw
    have h1f : (hasMissing u || hasMissing v) = false := by
      cases hres : (hasMissing u || hasMissing v)
      · rfl
      · exact absurd hres h1
    by_cases h2 : u.shape = v.shape
    · by_cases h3 : u.shape.length = 2 ∨ u.shape.length = 3
      · by_cases h4 : spharmtOk (u.shape.getD 1 0) (u.shape.getD 0 0) g.toLower = true
        · exact ⟨h1f, h2, h3, h4⟩
        · have h4f : spharmtOk (u.shape.getD 1 0) (u.shape.getD 0 0) g.toLower = false := by
            cases hres : spharmtOk (u.shape.getD 1 0) (u.shape.getD 0 0) g.toLower
            · rfl
            · exact absurd hres h4
          by_cases h5 : g.toLower = "regular" ∨ g.toLower = "gaussian"
          · rw [herr5 h1f h2 h3 h5 h4f] at hw; cases hw
          · rw [herr4 h1f h2 h3 h5] at hw; cases hw
      · rw [herr3 h1f h2 h3] at hw; cases hw
    · rw [herr2 h1f h2] at hw; cases hw
  · intro ⟨h1, h2, h3, h4⟩
    exact ⟨_, hok h1 h2 h3 h4⟩

/-- C7 witness: an input with a masked cell fails with the missing-value
message (the theorem applied at rank-1 arrays with a missing cell in `u`). -/
theorem vectorWindInit_spec_witness :
    ((hasMissing ⟨[1], [Option.none]⟩ || hasMissing ⟨[1], [Option.some 0]⟩) = true) ∧
    vectorWindInit ⟨[1], [Option.none]⟩ ⟨[1], [Option.some 0]⟩ "regular"
      = Except.error "u and v cannot contain missing values" :=
  ⟨by decide, (vectorWindInit_spec ⟨[1], [Option.none]⟩ ⟨[1], [Option.some 0]⟩
    "regular").2.1 (by decide)⟩

/-- C10: the missing-value scan runs before the shape and rank checks, so
inputs that both contain missing cells and disagree in shape (or have invalid
rank) fail with the missing-value error. -/
theorem missing_check_first (u v : NDArray (Option ℚ)) (g : String)
    (hu : hasMissing u = true) (hv : hasMissing v = true)
    (_hbad : u.shape ≠ v.shape ∨ ¬ (u.shape.length = 2 ∨ u.shape.length = 3)) :
    vectorWindInit u v g = Except.error "u and v cannot contain missing values" := by
  simp only [vectorWindInit]
  rw [if_pos (by simp [hu])]

/-- C10 witness: both components missing-valued, shapes `[2]` and `[3]`
mismatched (and rank 1, also invalid): the missing-value error is raised. -/
theorem missing_check_first_witness :
    (hasMissing ⟨[2], [Option.none, Option.none]⟩ = true ∧
      hasMissing ⟨[3], [Option.none, Option.some 1, Option.some 2]⟩ = true ∧
      (([2] : List ℕ) ≠ [3] ∨ ¬ (([2] : List ℕ).length = 2 ∨ ([2] : List ℕ).length = 3))) ∧
    vectorWindInit ⟨[2], [Option.none, Option.none]⟩
      ⟨[3], [Option.none, Option.some 1, Option.some 2]⟩ "gaussian"
      = Except.error "u and v cannot contain missing values" :=
  ⟨⟨by decide, by decide, by decide⟩,
    missing_check_first ⟨[2], [Option.none, Option.none]⟩
      ⟨[3], [Option.none, Option.some 1, Option.some 2]⟩ "gaussian"
      (by decide) (by decide) (by decide)⟩

/-! ### windspharm.standard.VectorWind.planetaryvorticity -/

/-- numpy `arange start stop step`: `ceil((stop - start) / step)` samples
`start + k * step` (empty when the count is not positive). -/
def arange (start stop step : ℚ) : List ℚ :=
  (List.range (⌈(stop - start) / step⌉).toNat).map (fun k : ℕ => start + (k : ℚ) * step)

/-- The `omega` argument as received by dynamically-typed Python: absent
(`None`), a numeric value, or a non-numeric value that makes the arithmetic
raise. -/
inductive PyArg where
  | none
  | num (x : ℚ)
  | invalid
deriving DecidableEq

/-- Resolution of the `omega` argument: `None` defaults to `7.292e-5`;
non-numeric values have no numeric resolution. -/
def resolveOmega : PyArg → Option ℚ
  | PyArg.none => Option.some (7292 / 100000000)
  | PyArg.num x => Option.some x
  | PyArg.invalid => Option.none

/-- `VectorWind.planetaryvorticity`: `2 * omega * sin(deg2rad(lat))` broadcast
over the array shape, with the latitude table chosen by grid type: the
Gaussian table for 'gaussian', else pole-inclusive `linspace(90, -90, nlat)`
for odd `nlat` and the half-grid-offset `arange(90 - dlat/2, -90, -dlat)` for
even `nlat`.  A non-numeric `omega` makes the arithmetic raise, re-raised as
the invalid-parameter error.  (The source formats the offending value into
the message with `repr`; the formatting is not reproduced here.  The
broadcast multiplies by a `float32` array of ones, modelled as `* 1`.) -/
def planetaryvorticity (G : GaussTable) (w : VWCore) (omega : PyArg)
    {R : Type} [Field R] (sinf : R → R) (piv : R) : Except String (NDArray R) :=
  match resolveOmega omega with
  | Option.none => Except.error "invalid value for omega"
  | Option.some om =>
    let lat : List ℚ :=
      if w.gridtype = "gaussian" then G.lats w.nlat
      else if w.nlat % 2 = 1 then linspace 90 (-90) w.nlat
      else arange (90 - (180 / (w.nlat : ℚ)) / 2) (-90) (-(180 / (w.nlat : ℚ)))
    let cp : List R := lat.map (fun phi : ℚ => 2 * (om : R) * sinf ((phi : R) * piv / 180))
    Except.ok ⟨w.u.shape, (List.range w.u.shape.prod).map
      (fun k => cp.getD ((unravel w.u.shape k).headD 0) 0 * 1)⟩

/-- The latitude table the result is built from, element-wise: the Gaussian
table for gaussian grids; for regular grids the evenly-spaced values that
include the poles for odd `nlat` and sit half a grid cell off the poles for
even `nlat`. -/
def latReference (G : GaussTable) (w : VWCore) (i : ℕ) : ℚ :=
  if w.gridtype = "gaussian" then (G.lats w.nlat).getD i 0
  else if w.nlat % 2 = 1 then 90 - (i : ℚ) * (180 / ((w.nlat : ℚ) - 1))
  else 90 - 90 / (w.nlat : ℚ) - (i : ℚ) * (180 / (w.nlat : ℚ))

theorem headD_eq_getD_any {α : Type} (l : List α) (d : α) : l.headD d = l.getD 0 d := by
  cases l <;> rfl

theorem length_arange_pv {n : ℕ} (hn : 0 < n) :
    (arange (90 - (180 / (n : ℚ)) / 2) (-90) (-(180 / (n : ℚ)))).length = n := by
  unfold arange
  rw [List.length_map, List.length_range]
  have hq : ((n : ℚ)) ≠ 0 := by positivity
  have hv : ((-90 : ℚ) - (90 - (180 / (n : ℚ)) / 2)) / (-(180 / (n : ℚ)))
      = (n : ℚ) - 1 / 2 := by
    field_simp
    ring
  rw [hv]
  have hceil : ⌈(n : ℚ) - 1 / 2⌉ = (n : ℤ) := by
    rw [Int.ceil_eq_iff]
    constructor
    · push_cast
      linarith
    · push_cast
      linarith
  rw [hceil, Int.toNat_natCast]

theorem getD_arange {start stop step : ℚ} {i : ℕ}
    (hi : i < (arange start stop step).length) :
    (arange start stop step).getD i 0 = start + (i : ℚ) * step := by
  unfold arange at hi ⊢
  rw [List.length_map, List.length_range] at hi
  exact getD_map_range hi _ 0

/-- C8: for a valid instance (grid type regular or gaussian, `nlat` the
leading extent, `nlat ≥ 3`), `planetaryvorticity` fails on a non-numeric
`omega`, defaults `omega` to `7.292e-5`, and otherwise returns an array of
the input shape whose every cell with leading index `i` holds
`2 * omega * sin(deg2rad(lat_i))` with `lat_i` drawn from the grid-appropriate
latitude table. -/
theorem planetaryvorticity_spec (G : GaussTable) (w : VWCore)
    (hnlat : w.nlat = w.u.shape.getD 0 0)
    (hgrid : w.gridtype = "regular" ∨ w.gridtype = "gaussian")
    (h3 : 3 ≤ w.nlat) :
    planetaryvorticity G w PyArg.invalid Real.sin Real.pi
        = Except.error "invalid value for omega" ∧
    resolveOmega PyArg.none = Option.some (7292 / 100000000) ∧
    (∀ (arg : PyArg) (om : ℚ), resolveOmega arg = Option.some om →
      ∃ r, planetaryvorticity G w arg Real.sin Real.pi = Except.ok r ∧
        r.shape = w.u.shape ∧
        ∀ ix, validIx w.u.shape ix = true →
          r.aget ix = 2 * (om : ℝ) *
            Real.sin (((latReference G w (ix.headD 0) : ℚ) : ℝ) * Real.pi / 180)) := by
  refine ⟨rfl, rfl, ?_⟩
  intro arg om hres
  have hnpos : 0 < w.nlat := by omega
  have hslen : 0 < w.u.shape.length := by
    by_contra h
    have h0 : w.u.shape = [] := List.length_eq_zero.mp (by omega)
    rw [hnlat, h0] at h3
    simp [List.getD] at h3
  -- the latitude table and its length
  set lat : List ℚ :=
    (if w.gridtype = "gaussian" then G.lats w.nlat
      else if w.nlat % 2 = 1 then linspace 90 (-90) w.nlat
      else arange (90 - (180 / (w.nlat : ℚ)) / 2) (-90) (-(180 / (w.nlat : ℚ)))) with hlat
  have hlatlen : lat.length = w.nlat := by
    rw [hlat]
    by_cases hg : w.gridtype = "gaussian"
    · rw [if_pos hg, G.length_lats]
    · rw [if_neg hg]
      by_cases ho : w.nlat % 2 = 1
      · rw [if_pos ho, length_linspace]
      · rw [if_neg ho, length_arange_pv hnpos]
  have hlatval : ∀ i, i < w.nlat → lat.getD i 0 = latReference G w i := by
    intro i hi
    rw [hlat]
    unfold latReference
    by_cases hg : w.gridtype = "gaussian"
    · rw [if_pos hg, if_pos hg]
    · rw [if_neg hg, if_neg hg]
      by_cases ho : w.nlat % 2 = 1
      · rw [if_pos ho, if_pos ho, getD_linspace (by omega)]
        ring
      · rw [if_neg ho, if_neg ho,
          getD_arange (by rw [length_arange_pv hnpos]; exact hi)]
        ring
  -- the result array
  have hval : planetaryvorticity G w arg Real.sin Real.pi = Except.ok
      ⟨w.u.shape, (List.range w.u.shape.prod).map
        (fun k => (lat.map (fun phi : ℚ =>
            2 * (om : ℝ) * Real.sin ((phi : ℝ) * Real.pi / 180))).getD
          ((unravel w.u.shape k).headD 0) 0 * 1)⟩ := by
    simp only [planetaryvorticity, hres]
  refine ⟨_, hval, rfl, ?_⟩
  intro ix hix
  have hi0 : ix.getD 0 0 < w.nlat := by
    rw [hnlat]
    exact validIx_getD hix 0 hslen
  have hravel : ravel w.u.shape ix < w.u.shape.prod := ravel_lt hix
  show (List.map _ (List.range w.u.shape.prod)).getD (ravel w.u.shape ix) default = _
  rw [getD_map_range hravel _ default, unravel_ravel hix, headD_eq_getD_any ix 0,
    mul_one, getD_map_of_lt _ (by rw [hlatlen]; exact hi0) 0 0,
    hlatval _ hi0]

/-- C8 witness instance: a valid regular-grid core with `nlat = 3`,
`nlon = 4`. -/
def pvCore : VWCore :=
  ⟨⟨[3, 4], List.replicate 12 0⟩, ⟨[3, 4], List.replicate 12 0⟩, "regular", 3, 4⟩

/-- C8 witness: the specification applied to `pvCore` with the default
`omega`. -/
theorem planetaryvorticity_spec_witness :
    (pvCore.nlat = pvCore.u.shape.getD 0 0 ∧
      (pvCore.gridtype = "regular" ∨ pvCore.gridtype = "gaussian") ∧ 3 ≤ pvCore.nlat) ∧
    planetaryvorticity gauss0 pvCore PyArg.invalid Real.sin Real.pi
        = Except.error "invalid value for omega" ∧
    (∃ r, planetaryvorticity gauss0 pvCore PyArg.none Real.sin Real.pi = Except.ok r ∧
      r.shape = pvCore.u.shape ∧
      ∀ ix, validIx pvCore.u.shape ix = true →
        r.aget ix = 2 * ((7292 / 100000000 : ℚ) : ℝ) *
          Real.sin (((latReference gauss0 pvCore (ix.headD 0) : ℚ) : ℝ) * Real.pi / 180)) :=
  ⟨⟨by decide, Or.inl (by decide), by decide⟩,
    (planetaryvorticity_spec gauss0 pvCore (by decide) (Or.inl (by decide)) (by decide)).1,
    (planetaryvorticity_spec gauss0 pvCore (by decide) (Or.inl (by decide)) (by decide)).2.2
      PyArg.none (7292 / 100000000) rfl⟩

/-! ### The xarray adapter: latitude orientation handling -/

/-- `windspharm.xarray._reverse`: reverse an array along one dimension
(`slice(-1, None, -1)` on that axis). -/
def reverseAxis {α : Type} [Inhabited α] (a : NDArray α) (dim : ℕ) : NDArray α :=
  ⟨a.shape, (List.range a.shape.prod).map (fun k =>
    let ix := unravel a.shape k
    a.data.getD (ravel a.shape (ix.set dim (a.shape.getD dim 0 - 1 - ix.getD dim 0)))
      default)⟩

/-- The latitude-orientation step of the xarray adapter constructor
(src/lib/windspharm/xarray.py lines 77-81): the latitude axis of the data and
the latitude coordinate are reversed exactly when `lat.values[0] <
lat.values[1]`. -/
def xarrayLatFixup {α : Type} [Inhabited α] (lat : List ℚ) (u v : NDArray α)
    (latDim : ℕ) : List ℚ × NDArray α × NDArray α :=
  if lat.getD 0 0 < lat.getD 1 0 then
    (lat.reverse, reverseAxis u latDim, reverseAxis v latDim)
  else (lat, u, v)

/-- C9: the xarray adapter reverses the latitude axis exactly when the first
latitude coordinate value is less than the second; when the first two values
are in descending (or equal) order the data passes through unreversed whatever
the remaining values are, so a non-monotonic latitude coordinate is never
detected by this step. -/
theorem xarray_reversal_decision {α : Type} [Inhabited α] (u v : NDArray α) (d : ℕ) :
    (∀ lat : List ℚ, ¬ lat.getD 0 0 < lat.getD 1 0 →
      xarrayLatFixup lat u v d = (lat, u, v)) ∧
    (∀ lat : List ℚ, lat.getD 0 0 < lat.getD 1 0 →
      xarrayLatFixup lat u v d = (lat.reverse, reverseAxis u d, reverseAxis v d)) ∧
    (∀ (l0 l1 : ℚ) (rest rest' : List ℚ),
      (xarrayLatFixup (l0 :: l1 :: rest) u v d).2
        = (xarrayLatFixup (l0 :: l1 :: rest') u v d).2) := by
  refine ⟨?_, ?_, ?_⟩
  · intro lat h
    unfold xarrayLatFixup
    rw [if_neg h]
  · intro lat h
    unfold xarrayLatFixup
    rw [if_pos h]
  · intro l0 l1 rest rest'
    unfold xarrayLatFixup
    by_cases h : l0 < l1
    · rw [if_pos (by simpa using h), if_pos (by simpa using h)]
    · rw [if_neg (by simpa using h), if_neg (by simpa using h)]

/-- C9 witness: a latitude coordinate whose first two values descend but whose
tail is non-monotonic passes through unreversed. -/
theorem xarray_reversal_decision_witness :
    (¬ ([0, -10, 50, -90] : List ℚ).getD 0 0 < ([0, -10, 50, -90] : List ℚ).getD 1 0) ∧
    xarrayLatFixup [0, -10, 50, -90] (⟨[4, 1], [1, 2, 3, 4]⟩ : NDArray ℕ)
        ⟨[4, 1], [5, 6, 7, 8]⟩ 0
      = ([0, -10, 50, -90], ⟨[4, 1], [1, 2, 3, 4]⟩, ⟨[4, 1], [5, 6, 7, 8]⟩) :=
  ⟨by simp, (xarray_reversal_decision (⟨[4, 1], [1, 2, 3, 4]⟩ : NDArray ℕ)
    ⟨[4, 1], [5, 6, 7, 8]⟩ 0).1 [0, -10, 50, -90] (by simp)⟩

end Windspharm

